import Mathlib

/-!
Verification of the constraint-violation detection and repair-generation
engine of the db-repair-cqa-system repository.

The JavaScript sources embedded here are:
  * frontend/src/utils/exportUtils.js   (violation checker section):
      `validateDataType`, `checkForeignKeyViolations`, `checkViolations`
  * frontend/src/utils/repairGenerator.js :
      `generatePrimaryKeyRepairs`, `generateGeneralRepairs`,
      `generatePartialRepairs`
  * frontend/src/utils/editUtils.js :
      `updateViolationsAfterDelete`

Cell values of a table are JavaScript values (null, undefined, strings and
numbers); they are modelled by the tagged type `Value` below.  Numeric cells
are modelled by integers: every concrete table in this development holds
integer or string cells, and no claim depends on non-integral floats.
-/

/-- A JavaScript cell value: `null`, `undefined`, a string, or a number
(numbers are modelled as integers, see the file comment). -/
inductive Value where
  | vnull : Value
  | vundef : Value
  | vstr : String → Value
  | vnum : Int → Value
deriving DecidableEq, Repr

/-- A row is a JavaScript object: a list of key/value bindings in insertion
order.  JavaScript objects cannot hold two bindings of the same key, so
`Object.keys` is the list of the keys in order. -/
abbrev Row := List (String × Value)

/-- The JavaScript member access `row[col]`: the bound value, or `undefined`
when the object has no such key. -/
def getVal (row : Row) (col : String) : Value :=
  match row.lookup col with
  | some v => v
  | none => Value.vundef

/-- The keys of a row object, in insertion order (`Object.keys(row)`). -/
def objKeys (row : Row) : List String := row.map Prod.fst

/-- The values of a row object, in insertion order (`Object.values(row)`). -/
def objValues (row : Row) : List Value := row.map Prod.snd

/-- The JavaScript test `val === '' || val == null` used throughout the
checker: the empty string, `null` and `undefined` count as empty. -/
def isEmptyVal : Value → Bool
  | Value.vnull => true
  | Value.vundef => true
  | Value.vstr s => s = ""
  | Value.vnum _ => false

/-- The JavaScript conversion `String(value)`.  (For numbers of magnitude at
least 10^21 JavaScript switches to exponent notation; the tables of this
development never hold such numbers.) -/
def valueToString : Value → String
  | Value.vnull => "null"
  | Value.vundef => "undefined"
  | Value.vstr s => s
  | Value.vnum n => toString n

/-- The characters stripped by `String.prototype.trim`. -/
def isJsSpace (c : Char) : Bool :=
  c == ' ' || c == '\t' || c == '\n' || c == '\r' ||
  c.val == 11 || c.val == 12 || c.val == 160 || c.val == 0xFEFF

/-- The JavaScript `String.prototype.trim`. -/
def jsTrim (s : String) : String :=
  String.mk (((s.data.dropWhile isJsSpace).reverse.dropWhile isJsSpace).reverse)

/-- The JavaScript `String.prototype.toUpperCase` (the sources only apply it
to ASCII type names). -/
def jsToUpper (s : String) : String := String.mk (s.data.map Char.toUpper)

/-- The JavaScript `String.prototype.toLowerCase` (applied to ASCII data
only in the sources). -/
def jsToLower (s : String) : String := String.mk (s.data.map Char.toLower)

/-- Decide whether `pat` occurs as a contiguous substring, as JavaScript
`s.includes(pat)` does. -/
def jsIncludesChars (pat : List Char) : List Char → Bool
  | [] => pat.isEmpty
  | c :: rest => pat.isPrefixOf (c :: rest) || jsIncludesChars pat rest

/-- The JavaScript `s.includes(pat)` substring test. -/
def jsIncludes (s pat : String) : Bool := jsIncludesChars pat.data s.data

/-- The regular expression `^-?\d+$` from `validateDataType`. -/
def isIntegerLiteral (s : String) : Bool :=
  match s.data with
  | '-' :: ds => !ds.isEmpty && ds.all Char.isDigit
  | ds => !ds.isEmpty && ds.all Char.isDigit

/-- The numeric value of a list of decimal digit characters. -/
def digitsToNat (ds : List Char) : Nat :=
  ds.foldl (fun n c => 10 * n + (c.toNat - '0'.toNat)) 0

/-- The magnitude denoted by a string matching `^-?\d+$`. -/
def integerLiteralMagnitude (s : String) : Nat :=
  match s.data with
  | '-' :: ds => digitsToNat ds
  | ds => digitsToNat ds

/-- The IEEE-754 double-precision overflow threshold: `parseFloat` of a
decimal integer literal is finite exactly when the denoted magnitude is
below `2^1024 - 2^970` (round-to-nearest-even rounds anything at or above
this bound to infinity). -/
def jsDoubleOverflowBound : Nat := 2 ^ 1024 - 2 ^ 970

/-- The conjunction `!isNaN(num) && isFinite(num) && Number.isInteger(num)
&& /^-?\d+$/.test(trimmedVal)` from the INTEGER branch of
`validateDataType`: for a string matching the regular expression the parsed
double is automatically a non-NaN integer, so only finiteness is an extra
condition. -/
def jsIntegerCheck (t : String) : Bool :=
  isIntegerLiteral t && integerLiteralMagnitude t < jsDoubleOverflowBound

/-- One character class of the decimal-literal recogniser below. -/
def allDigits (ds : List Char) : Bool := !ds.isEmpty && ds.all Char.isDigit

/-- Drop one leading sign character, for the decimal-literal recogniser. -/
def stripSign : List Char → List Char
  | '-' :: ds => ds
  | '+' :: ds => ds
  | ds => ds

/-- A decimal float literal: sign, digits with optional fraction or a bare
fraction, and an optional exponent.  This approximates the JavaScript pair
`!isNaN(parseFloat(t)) && isFinite(t)` of the FLOAT branch; hexadecimal
forms and the double overflow threshold for huge exponents are not
modelled.  No claim in this development depends on this branch. -/
def isFloatLiteral (s : String) : Bool :=
  let body := match s.data with
    | '-' :: ds => ds
    | '+' :: ds => ds
    | ds => ds
  let noExp := match body.splitOn 'e' with
    | [m] => (match m.splitOn 'E' with
      | [m'] => some m'
      | [m', e] => if allDigits (stripSign e) then some m' else none
      | _ => none)
    | [m, e] => if allDigits (stripSign e) then some m else none
    | _ => none
  match noExp with
  | none => false
  | some m => match m.splitOn '.' with
    | [d] => allDigits d
    | [d, f] => (allDigits d && (f.isEmpty || f.all Char.isDigit)) ||
                (d.isEmpty && allDigits f)
    | _ => false

/-- A recogniser for the DATE/DATETIME/TIMESTAMP branch.  `Date.parse` is
host-defined for non-ISO inputs (ECMA-262 leaves them implementation
dependent); it is modelled as the ISO `YYYY-MM-DD` prefix check.  No claim
in this development depends on this branch. -/
def isDateParseable (s : String) : Bool :=
  match s.data with
  | y1 :: y2 :: y3 :: y4 :: '-' :: m1 :: m2 :: '-' :: d1 :: d2 :: _ =>
    [y1, y2, y3, y4, m1, m2, d1, d2].all Char.isDigit
  | _ => false

/-- The boolean spellings accepted by the BOOLEAN branch. -/
def boolWords : List String := ["true", "false", "1", "0", "yes", "no"]

/-- The function `validateDataType(value, sqlType)` of `exportUtils.js`
(violation checker section, lines 241-283): validate one raw value against
one declared SQL column type.  The `switch` on the upper-cased type name,
whose cases fall through within each group, is rendered as one membership
test per group. -/
def validateDataType (value : Value) (sqlType : String) : Bool :=
  if value == Value.vstr "" || value == Value.vnull || value == Value.vundef then
    true
  else
    let trimmedVal := jsTrim (valueToString value)
    if trimmedVal == "" then true
    else
      let u := jsToUpper sqlType
      if u ∈ ["INT", "INTEGER", "BIGINT"] then jsIntegerCheck trimmedVal
      else if u ∈ ["FLOAT", "DOUBLE", "DECIMAL", "NUMERIC"] then
        isFloatLiteral trimmedVal
      else if u ∈ ["BOOLEAN", "BOOL"] then boolWords.contains (jsToLower trimmedVal)
      else if u ∈ ["DATE", "DATETIME", "TIMESTAMP"] then isDateParseable trimmedVal
      else true

/-- The SQL type names that select a non-default branch of
`validateDataType` (every other type name falls through to the default
`return true`). -/
def knownTypeNames : List String :=
  ["INT", "INTEGER", "BIGINT", "FLOAT", "DOUBLE", "DECIMAL", "NUMERIC",
   "BOOLEAN", "BOOL", "DATE", "DATETIME", "TIMESTAMP"]

theorem isEmptyVal_eq_guard (v : Value) :
    (v == Value.vstr "" || v == Value.vnull || v == Value.vundef) = isEmptyVal v := by
  cases v with
  | vstr s => by_cases h : s = "" <;> simp [isEmptyVal, h]
  | vnull => rfl
  | vundef => rfl
  | vnum n => rfl

theorem validateDataType_of_empty (v : Value) (ty : String) (h : isEmptyVal v = true) :
    validateDataType v ty = true := by
  unfold validateDataType
  rw [isEmptyVal_eq_guard, h]
  rfl

theorem validateDataType_of_nonempty (v : Value) (ty : String)
    (hne : isEmptyVal v = false) (htr : jsTrim (valueToString v) ≠ "") :
    validateDataType v ty =
      (if jsToUpper ty ∈ ["INT", "INTEGER", "BIGINT"] then
        jsIntegerCheck (jsTrim (valueToString v))
      else if jsToUpper ty ∈ ["FLOAT", "DOUBLE", "DECIMAL", "NUMERIC"] then
        isFloatLiteral (jsTrim (valueToString v))
      else if jsToUpper ty ∈ ["BOOLEAN", "BOOL"] then
        boolWords.contains (jsToLower (jsTrim (valueToString v)))
      else if jsToUpper ty ∈ ["DATE", "DATETIME", "TIMESTAMP"] then
        isDateParseable (jsTrim (valueToString v))
      else true) := by
  unfold validateDataType
  rw [isEmptyVal_eq_guard, hne]
  simp [htr]

/-- C8: `validateDataType(value, sqlType)` is pure and total; it returns
true on null/empty values and on values whose text trims to empty; for
INTEGER/BIGINT it returns true exactly when the trimmed text matches
`^-?\d+$` and denotes a magnitude below the IEEE-754 double overflow bound
(the code's "parses to a finite integer"); for BOOLEAN exactly when the
trimmed text is case-insensitively one of true/false/1/0/yes/no; and for
VARCHAR/TEXT/CHAR and every type name outside the switch it returns true. -/
theorem C8_validateDataType (v : Value) (ty : String) :
    (isEmptyVal v = true ∨ jsTrim (valueToString v) = "" →
      validateDataType v ty = true)
  ∧ ((jsToUpper ty = "INTEGER" ∨ jsToUpper ty = "BIGINT") →
      isEmptyVal v = false → jsTrim (valueToString v) ≠ "" →
      (validateDataType v ty = true ↔
        isIntegerLiteral (jsTrim (valueToString v)) = true ∧
        integerLiteralMagnitude (jsTrim (valueToString v)) < jsDoubleOverflowBound))
  ∧ (jsToUpper ty = "BOOLEAN" →
      isEmptyVal v = false → jsTrim (valueToString v) ≠ "" →
      (validateDataType v ty = true ↔
        boolWords.contains (jsToLower (jsTrim (valueToString v))) = true))
  ∧ ((jsToUpper ty = "VARCHAR" ∨ jsToUpper ty = "TEXT" ∨ jsToUpper ty = "CHAR" ∨
      jsToUpper ty ∉ knownTypeNames) →
      validateDataType v ty = true) := by
  refine ⟨?_, ?_, ?_, ?_⟩
  · rintro (h | h)
    · exact validateDataType_of_empty v ty h
    · cases hv : isEmptyVal v
      · unfold validateDataType
        rw [isEmptyVal_eq_guard, hv]
        simp [h]
      · exact validateDataType_of_empty v ty hv
  · intro hty hne htr
    rw [validateDataType_of_nonempty v ty hne htr]
    rcases hty with h | h <;> rw [h] <;> simp [jsIntegerCheck]
  · intro hty hne htr
    rw [validateDataType_of_nonempty v ty hne htr, hty]
    simp
  · intro hty
    cases hv : isEmptyVal v
    · by_cases htr : jsTrim (valueToString v) = ""
      · unfold validateDataType
        rw [isEmptyVal_eq_guard, hv]
        simp [htr]
      · rw [validateDataType_of_nonempty v ty hv htr]
        rcases hty with h | h | h | h
        · rw [h]; rfl
        · rw [h]; rfl
        · rw [h]; rfl
        · simp only [knownTypeNames, List.mem_cons, List.not_mem_nil] at h
          push_neg at h
          obtain ⟨h1, h2, h3, h4, h5, h6, h7, h8, h9, h10, h11, h12, _⟩ := h
          simp [h1, h2, h3, h4, h5, h6, h7, h8, h9, h10, h11, h12]
    · exact validateDataType_of_empty v ty hv

theorem lt_jsDoubleOverflowBound_of_small (n : Nat) (h : n < 2 ^ 64) :
    n < jsDoubleOverflowBound := by
  have h1 : (2 : Nat) ^ 970 ≤ 2 ^ 1023 := Nat.pow_le_pow_right (by norm_num) (by norm_num)
  have h2 : (2 : Nat) ^ 64 ≤ 2 ^ 1023 := Nat.pow_le_pow_right (by norm_num) (by norm_num)
  have h3 : (2 : Nat) ^ 1023 + 2 ^ 1023 = 2 ^ 1024 := by
    rw [← two_mul, ← pow_succ']
  unfold jsDoubleOverflowBound
  omega

/-- Witness for C8: the INTEGER clause applied at the concrete value " 25 ". -/
theorem C8_validateDataType_witness :
    validateDataType (Value.vstr " 25 ") "integer" = true :=
  ((C8_validateDataType (Value.vstr " 25 ") "integer").2.1 (Or.inl (by decide))
    (by decide) (by decide)).mpr
    ⟨by decide, lt_jsDoubleOverflowBound_of_small _ (by decide)⟩

/-- A violation record as produced by `checkForeignKeyViolations`
(`exportUtils.js` violation checker section, lines 293-329): row (1-based),
column, violation kind, offending value, and message. -/
structure FKViolation where
  row : Int
  col : String
  vtype : String
  value : Value
  msg : String
deriving DecidableEq, Repr

/-- The set of trimmed non-empty values of the referenced key column, built
by the first `forEach` of `checkForeignKeyViolations`.  The JavaScript `Set`
is modelled as a list used only through membership. -/
def fkPrimarySet (primaryRows : List Row) (pkCol : String) : List String :=
  primaryRows.filterMap (fun row =>
    let val := getVal row pkCol
    if isEmptyVal val then none else some (jsTrim (valueToString val)))

/-- The violation record pushed for referencing row `i` (0-based). -/
def fkViolAt (fkCol : String) (i : Nat) (row : Row) : FKViolation :=
  { row := (i : Int) + 1, col := fkCol, vtype := "FOREIGN KEY",
    value := getVal row fkCol,
    msg := "Value '" ++ valueToString (getVal row fkCol) ++
           "' not found in primary key column" }

/-- An indexed traversal that optionally emits one output per element: the
shape of every stateless `forEach`-with-conditional-`push` loop in the
sources.  `i0` is the index of the first element. -/
def idxScan (f : Nat → α → Option β) : List α → Nat → List β
  | [], _ => []
  | a :: rest, i =>
    match f i a with
    | some b => b :: idxScan f rest (i + 1)
    | none => idxScan f rest (i + 1)

theorem mem_idxScan_iff (f : Nat → α → Option β) (l : List α) (i0 : Nat) (b : β) :
    b ∈ idxScan f l i0 ↔
      ∃ k, ∃ hk : k < l.length, f (i0 + k) (l.get ⟨k, hk⟩) = some b := by
  induction l generalizing i0 with
  | nil => simp [idxScan]
  | cons a rest ih =>
    have shift : (∃ k, ∃ hk : k < rest.length,
        f (i0 + 1 + k) (rest.get ⟨k, hk⟩) = some b) ↔
        (∃ k, ∃ hk : k + 1 < rest.length + 1,
          f (i0 + (k + 1)) (rest.get ⟨k, Nat.lt_of_succ_lt_succ hk⟩) = some b) := by
      constructor
      · rintro ⟨k, hk, h⟩
        exact ⟨k, Nat.succ_lt_succ hk, by rw [← h]; ring_nf⟩
      · rintro ⟨k, hk, h⟩
        exact ⟨k, Nat.lt_of_succ_lt_succ hk, by rw [← h]; ring_nf⟩
    unfold idxScan
    cases hf : f i0 a with
    | some b' =>
      simp only [List.mem_cons, ih (i0 + 1)]
      constructor
      · rintro (h | ⟨k, hk, h⟩)
        · exact ⟨0, by simp, by simpa [hf] using h.symm⟩
        · rcases shift.mp ⟨k, hk, h⟩ with ⟨k', hk', h'⟩
          exact ⟨k' + 1, by simpa using hk', by simpa using h'⟩
      · rintro ⟨k, hk, h⟩
        cases k with
        | zero =>
          left
          simp only [Nat.add_zero, List.get] at h
          rw [hf] at h
          exact (Option.some_inj.mp h).symm
        | succ k' =>
          right
          rcases shift.mpr ⟨k', by simpa using hk, by simpa using h⟩ with ⟨k'', hk'', h''⟩
          exact ⟨k'', hk'', h''⟩
    | none =>
      rw [ih (i0 + 1)]
      rw [shift]
      constructor
      · rintro ⟨k, hk, h⟩
        exact ⟨k + 1, by simpa using hk, by simpa using h⟩
      · rintro ⟨k, hk, h⟩
        cases k with
        | zero =>
          simp only [Nat.add_zero, List.get] at h
          rw [hf] at h
          cases h
        | succ k' =>
          exact ⟨k', by simpa using hk, by simpa using h⟩

/-- The second `forEach` of `checkForeignKeyViolations`: scan the
referencing rows, skipping empty foreign-key values and values whose
trimmed string form is in the referenced-key set. -/
def fkScan (fkCol : String) (ps : List String) (rows : List Row) : List FKViolation :=
  idxScan (fun i row =>
    let fkVal := getVal row fkCol
    if isEmptyVal fkVal then none
    else if ps.contains (jsTrim (valueToString fkVal)) then none
    else some (fkViolAt fkCol i row)) rows 0

/-- The function `checkForeignKeyViolations(foreignRows, primaryRows,
fkCol, pkCol)` of `exportUtils.js` (lines 293-329).  The JavaScript guard
returns `[]` when any argument is falsy; for the string arguments that is
the empty column name (the row-list arguments are genuine arrays here). -/
def checkForeignKeyViolations (foreignRows primaryRows : List Row)
    (fkCol pkCol : String) : List FKViolation :=
  if fkCol = "" || pkCol = "" then []
  else fkScan fkCol (fkPrimarySet primaryRows pkCol) foreignRows

/-- C7: `checkForeignKeyViolations` emits a FOREIGN KEY violation exactly
for the referencing rows whose foreign-key value is non-empty (not
null/undefined/'') and whose trimmed string form is not among the trimmed
non-empty values of the referenced key column; rows with empty foreign-key
values are never flagged. -/
theorem C7_checkForeignKeyViolations (foreignRows primaryRows : List Row)
    (fkCol pkCol : String) (hfk : fkCol ≠ "") (hpk : pkCol ≠ "") :
    (∀ s, s ∈ fkPrimarySet primaryRows pkCol ↔
       ∃ r ∈ primaryRows, isEmptyVal (getVal r pkCol) = false ∧
         s = jsTrim (valueToString (getVal r pkCol)))
  ∧ ∀ i, ∀ hi : i < foreignRows.length,
      ((∃ v ∈ checkForeignKeyViolations foreignRows primaryRows fkCol pkCol,
          v.row = (i : Int) + 1) ↔
        (isEmptyVal (getVal (foreignRows.get ⟨i, hi⟩) fkCol) = false ∧
         (fkPrimarySet primaryRows pkCol).contains
           (jsTrim (valueToString (getVal (foreignRows.get ⟨i, hi⟩) fkCol))) = false)) := by
  constructor
  · intro s
    unfold fkPrimarySet
    rw [List.mem_filterMap]
    constructor
    · rintro ⟨r, hr, hf⟩
      by_cases he : isEmptyVal (getVal r pkCol) = true
      · simp [he] at hf
      · rw [Bool.not_eq_true] at he
        simp only [he, Bool.false_eq_true, if_false, Option.some_inj] at hf
        exact ⟨r, hr, he, hf.symm⟩
    · rintro ⟨r, hr, he, hs⟩
      exact ⟨r, hr, by simp [he, hs]⟩
  · intro i hi
    unfold checkForeignKeyViolations
    rw [if_neg (by simp [hfk, hpk])]
    unfold fkScan
    constructor
    · rintro ⟨v, hv, hrow⟩
      rcases (mem_idxScan_iff _ _ _ _).mp hv with ⟨k, hk, hf⟩
      simp at hf
      obtain ⟨h1, h2, h3⟩ := hf
      have hki : k = i := by
        rw [← h3] at hrow
        unfold fkViolAt at hrow
        simp at hrow
        omega
      subst hki
      constructor
      · simpa using h1
      · simpa using h2
    · rintro ⟨he, hc⟩
      refine ⟨fkViolAt fkCol i (foreignRows.get ⟨i, hi⟩), ?_, by simp [fkViolAt]⟩
      refine (mem_idxScan_iff _ _ _ _).mpr ⟨i, hi, ?_⟩
      simp only [he, hc, Bool.false_eq_true, if_false, Nat.zero_add]

/-- Witness for C7: referencing values '1', '9', '' checked against
referenced keys {'1','2'} flag exactly the '9' row (1-based row 2). -/
theorem C7_checkForeignKeyViolations_witness :
    (∃ v ∈ checkForeignKeyViolations
        [[("fk", Value.vstr "1")], [("fk", Value.vstr "9")], [("fk", Value.vstr "")]]
        [[("pk", Value.vstr "1")], [("pk", Value.vstr "2")]] "fk" "pk",
        v.row = (1 : Int) + 1) ∧
    (checkForeignKeyViolations
        [[("fk", Value.vstr "1")], [("fk", Value.vstr "9")], [("fk", Value.vstr "")]]
        [[("pk", Value.vstr "1")], [("pk", Value.vstr "2")]] "fk" "pk").length = 1 := by
  constructor
  · exact ((C7_checkForeignKeyViolations
      [[("fk", Value.vstr "1")], [("fk", Value.vstr "9")], [("fk", Value.vstr "")]]
      [[("pk", Value.vstr "1")], [("pk", Value.vstr "2")]] "fk" "pk"
      (by decide) (by decide)).2 1 (by decide)).mpr ⟨by decide, by decide⟩
  · decide

/-- A violation record as produced by `checkViolations` (`exportUtils.js`
lines 340-440): 1-based row, column name, violation kind and message.  The
JavaScript field `type` is rendered as `vtype`. -/
structure Violation where
  row : Int
  col : String
  vtype : String
  msg : String
deriving DecidableEq, Repr

/-- The row of index `k` of a table (total, for stating row conditions). -/
def rowAt (rows : List Row) (k : Nat) : Row := rows.getD k []

/-- The TYPE MISMATCH record pushed at 0-based row `i`. -/
def mkTypeViol (i : Nat) (col dataType : String) (val : Value) : Violation :=
  { row := (i : Int) + 1, col := col, vtype := "TYPE MISMATCH",
    msg := "Type mismatch: expected " ++ dataType ++ ", got \"" ++
           valueToString val ++ "\"" }

/-- The PRIMARY KEY null record pushed at 0-based row `i`. -/
def pkNullViol (col : String) (i : Nat) : Violation :=
  { row := (i : Int) + 1, col := col, vtype := "PRIMARY KEY", msg := "Null/empty value" }

/-- The PRIMARY KEY duplicate record pushed at 0-based row `i`. -/
def pkDupViol (col : String) (i : Nat) : Violation :=
  { row := (i : Int) + 1, col := col, vtype := "PRIMARY KEY", msg := "Duplicate value" }

/-- The UNIQUE duplicate record pushed at 0-based row `i`. -/
def uniqueDupViol (col : String) (i : Nat) : Violation :=
  { row := (i : Int) + 1, col := col, vtype := "UNIQUE", msg := "Duplicate value" }

/-- The NOT NULL record pushed at 0-based row `i`. -/
def notNullViol (col : String) (i : Nat) : Violation :=
  { row := (i : Int) + 1, col := col, vtype := "NOT NULL", msg := "Null/empty value" }

/-- The type-mismatch pass of `checkViolations` over one column. -/
def typeScan (col dataType : String) (rows : List Row) : List Violation :=
  idxScan (fun i row =>
    if validateDataType (getVal row col) dataType then none
    else some (mkTypeViol i col dataType (getVal row col))) rows 0

/-- The PRIMARY KEY pass of `checkViolations` over one column: a single
pass with a seen-value set (`seen` lists the values recorded so far). -/
def pkScan (col : String) : List Row → Nat → List Value → List Violation
  | [], _, _ => []
  | row :: rest, i, seen =>
    let val := getVal row col
    if isEmptyVal val then pkNullViol col i :: pkScan col rest (i + 1) seen
    else if seen.contains val then pkDupViol col i :: pkScan col rest (i + 1) seen
    else pkScan col rest (i + 1) (val :: seen)

/-- The UNIQUE pass of `checkViolations` over one column: like the PRIMARY
KEY pass but null/empty values are exempt. -/
def uniqueScan (col : String) : List Row → Nat → List Value → List Violation
  | [], _, _ => []
  | row :: rest, i, seen =>
    let val := getVal row col
    if isEmptyVal val then uniqueScan col rest (i + 1) seen
    else if seen.contains val then
      uniqueDupViol col i :: uniqueScan col rest (i + 1) seen
    else uniqueScan col rest (i + 1) (val :: seen)

/-- The NOT NULL pass of `checkViolations` over one column. -/
def notNullScan (col : String) (rows : List Row) : List Violation :=
  idxScan (fun i row =>
    if isEmptyVal (getVal row col) then some (notNullViol col i) else none) rows 0

theorem mem_pkScan_iff (col : String) (rows : List Row) (i0 : Nat)
    (seen : List Value) (v : Violation) :
    v ∈ pkScan col rows i0 seen ↔
      ∃ k, k < rows.length ∧
        ((isEmptyVal (getVal (rowAt rows k) col) = true ∧ v = pkNullViol col (i0 + k)) ∨
         (isEmptyVal (getVal (rowAt rows k) col) = false ∧
          (getVal (rowAt rows k) col ∈ seen ∨
            ∃ j, j < k ∧ getVal (rowAt rows j) col = getVal (rowAt rows k) col) ∧
          v = pkDupViol col (i0 + k))) := by
  induction rows generalizing i0 seen with
  | nil => simp [pkScan]
  | cons r rest ih =>
    have hshift : ∀ k, rowAt (r :: rest) (k + 1) = rowAt rest k := by
      intro k; rfl
    have hzero : rowAt (r :: rest) 0 = r := rfl
    unfold pkScan
    by_cases he : isEmptyVal (getVal r col) = true
    · rw [if_pos he]
      simp only [List.mem_cons, ih (i0 + 1) seen]
      constructor
      · rintro (hv | ⟨k, hk, hcond⟩)
        · exact ⟨0, by simp, Or.inl ⟨by rwa [hzero], by simpa using hv⟩⟩
        · refine ⟨k + 1, by simpa using hk, ?_⟩
          rw [hshift]
          rcases hcond with ⟨h1, h2⟩ | ⟨h1, h2, h3⟩
          · exact Or.inl ⟨h1, by rw [h2]; congr 1; omega⟩
          · refine Or.inr ⟨h1, ?_, by rw [h3]; congr 1; omega⟩
            rcases h2 with h2 | ⟨j, hj, hjeq⟩
            · exact Or.inl h2
            · exact Or.inr ⟨j + 1, by omega, by rwa [hshift]⟩
      · rintro ⟨k, hk, hcond⟩
        cases k with
        | zero =>
          rw [hzero] at hcond
          rcases hcond with ⟨_, h2⟩ | ⟨h1, _, _⟩
          · exact Or.inl (by simpa using h2)
          · rw [he] at h1; cases h1
        | succ k' =>
          rw [hshift] at hcond
          right
          refine ⟨k', by simpa using hk, ?_⟩
          rcases hcond with ⟨h1, h2⟩ | ⟨h1, h2, h3⟩
          · exact Or.inl ⟨h1, by rw [h2]; congr 1; omega⟩
          · refine Or.inr ⟨h1, ?_, by rw [h3]; congr 1; omega⟩
            rcases h2 with h2 | ⟨j, hj, hjeq⟩
            · exact Or.inl h2
            · cases j with
              | zero =>
                rw [hzero] at hjeq
                rw [← hjeq] at h1
                rw [he] at h1
                cases h1
              | succ j' =>
                rw [hshift] at hjeq
                exact Or.inr ⟨j', by omega, hjeq⟩
    · rw [if_neg he]
      rw [Bool.not_eq_true] at he
      by_cases hc : List.contains seen (getVal r col) = true
      · rw [if_pos hc]
        rw [List.contains_eq_any_beq] at hc
        have hcmem : getVal r col ∈ seen := by
          rw [List.any_eq_true] at hc
          rcases hc with ⟨x, hx, hbx⟩
          rw [beq_iff_eq] at hbx
          rwa [← hbx] at hx
        simp only [List.mem_cons, ih (i0 + 1) seen]
        constructor
        · rintro (hv | ⟨k, hk, hcond⟩)
          · exact ⟨0, by simp, Or.inr ⟨by rwa [hzero], Or.inl (by rwa [hzero]),
              by simpa using hv⟩⟩
          · refine ⟨k + 1, by simpa using hk, ?_⟩
            rw [hshift]
            rcases hcond with ⟨h1, h2⟩ | ⟨h1, h2, h3⟩
            · exact Or.inl ⟨h1, by rw [h2]; congr 1; omega⟩
            · refine Or.inr ⟨h1, ?_, by rw [h3]; congr 1; omega⟩
              rcases h2 with h2 | ⟨j, hj, hjeq⟩
              · exact Or.inl h2
              · exact Or.inr ⟨j + 1, by omega, by rwa [hshift]⟩
        · rintro ⟨k, hk, hcond⟩
          cases k with
          | zero =>
            rw [hzero] at hcond
            rcases hcond with ⟨h1, _⟩ | ⟨_, _, h3⟩
            · rw [he] at h1; cases h1
            · exact Or.inl (by simpa using h3)
          | succ k' =>
            rw [hshift] at hcond
            right
            refine ⟨k', by simpa using hk, ?_⟩
            rcases hcond with ⟨h1, h2⟩ | ⟨h1, h2, h3⟩
            · exact Or.inl ⟨h1, by rw [h2]; congr 1; omega⟩
            · refine Or.inr ⟨h1, ?_, by rw [h3]; congr 1; omega⟩
              rcases h2 with h2 | ⟨j, hj, hjeq⟩
              · exact Or.inl h2
              · cases j with
                | zero =>
                  rw [hzero] at hjeq
                  exact Or.inl (by rw [← hjeq]; exact hcmem)
                | succ j' =>
                  rw [hshift] at hjeq
                  exact Or.inr ⟨j', by omega, hjeq⟩
      · rw [if_neg hc]
        rw [Bool.not_eq_true, List.contains_eq_any_beq] at hc
        have hcnot : getVal r col ∉ seen := by
          intro hmem
          have : seen.any (fun x => getVal r col == x) = true := by
            rw [List.any_eq_true]
            exact ⟨getVal r col, hmem, by simp⟩
          rw [this] at hc; cases hc
        rw [ih (i0 + 1) (getVal r col :: seen)]
        constructor
        · rintro ⟨k, hk, hcond⟩
          refine ⟨k + 1, by simpa using hk, ?_⟩
          rw [hshift]
          rcases hcond with ⟨h1, h2⟩ | ⟨h1, h2, h3⟩
          · exact Or.inl ⟨h1, by rw [h2]; congr 1; omega⟩
          · refine Or.inr ⟨h1, ?_, by rw [h3]; congr 1; omega⟩
            rcases h2 with h2 | ⟨j, hj, hjeq⟩
            · rcases List.mem_cons.mp h2 with h2 | h2
              · exact Or.inr ⟨0, by omega, by rw [hzero, h2]⟩
              · exact Or.inl h2
            · exact Or.inr ⟨j + 1, by omega, by rwa [hshift]⟩
        · rintro ⟨k, hk, hcond⟩
          cases k with
          | zero =>
            rw [hzero] at hcond
            rcases hcond with ⟨h1, _⟩ | ⟨_, h2, _⟩
            · rw [he] at h1; cases h1
            · rcases h2 with h2 | ⟨j, hj, _⟩
              · exact absurd h2 hcnot
              · omega
          | succ k' =>
            rw [hshift] at hcond
            refine ⟨k', by simpa using hk, ?_⟩
            rcases hcond with ⟨h1, h2⟩ | ⟨h1, h2, h3⟩
            · exact Or.inl ⟨h1, by rw [h2]; congr 1; omega⟩
            · refine Or.inr ⟨h1, ?_, by rw [h3]; congr 1; omega⟩
              rcases h2 with h2 | ⟨j, hj, hjeq⟩
              · exact Or.inl (List.mem_cons_of_mem _ h2)
              · cases j with
                | zero =>
                  rw [hzero] at hjeq
                  exact Or.inl (by rw [← hjeq]; exact List.mem_cons_self _ _)
                | succ j' =>
                  rw [hshift] at hjeq
                  exact Or.inr ⟨j', by omega, hjeq⟩

theorem mem_uniqueScan_iff (col : String) (rows : List Row) (i0 : Nat)
    (seen : List Value) (v : Violation) :
    v ∈ uniqueScan col rows i0 seen ↔
      ∃ k, k < rows.length ∧
        isEmptyVal (getVal (rowAt rows k) col) = false ∧
        (getVal (rowAt rows k) col ∈ seen ∨
          ∃ j, j < k ∧ getVal (rowAt rows j) col = getVal (rowAt rows k) col) ∧
        v = uniqueDupViol col (i0 + k) := by
  induction rows generalizing i0 seen with
  | nil => simp [uniqueScan]
  | cons r rest ih =>
    have hshift : ∀ k, rowAt (r :: rest) (k + 1) = rowAt rest k := by
      intro k; rfl
    have hzero : rowAt (r :: rest) 0 = r := rfl
    unfold uniqueScan
    by_cases he : isEmptyVal (getVal r col) = true
    · rw [if_pos he]
      rw [ih (i0 + 1) seen]
      constructor
      · rintro ⟨k, hk, h1, h2, h3⟩
        refine ⟨k + 1, by simpa using hk, by rwa [hshift], ?_,
          by rw [h3]; congr 1; omega⟩
        rw [hshift]
        rcases h2 with h2 | ⟨j, hj, hjeq⟩
        · exact Or.inl h2
        · exact Or.inr ⟨j + 1, by omega, by rwa [hshift]⟩
      · rintro ⟨k, hk, h1, h2, h3⟩
        cases k with
        | zero => rw [hzero] at h1; rw [he] at h1; cases h1
        | succ k' =>
          rw [hshift] at h1
          refine ⟨k', by simpa using hk, h1, ?_, by rw [h3]; congr 1; omega⟩
          rcases h2 with h2 | ⟨j, hj, hjeq⟩
          · exact Or.inl h2
          · cases j with
            | zero =>
              rw [hzero] at hjeq
              rw [hshift] at hjeq
              rw [← hjeq] at h1
              rw [he] at h1
              cases h1
            | succ j' =>
              rw [hshift] at hjeq
              rw [hshift] at hjeq
              exact Or.inr ⟨j', by omega, hjeq⟩
    · rw [if_neg he]
      rw [Bool.not_eq_true] at he
      by_cases hc : List.contains seen (getVal r col) = true
      · rw [if_pos hc]
        rw [List.contains_eq_any_beq] at hc
        have hcmem : getVal r col ∈ seen := by
          rw [List.any_eq_true] at hc
          rcases hc with ⟨x, hx, hbx⟩
          rw [beq_iff_eq] at hbx
          rwa [← hbx] at hx
        simp only [List.mem_cons, ih (i0 + 1) seen]
        constructor
        · rintro (hv | ⟨k, hk, h1, h2, h3⟩)
          · exact ⟨0, by simp, by rwa [hzero], Or.inl (by rwa [hzero]),
              by simpa using hv⟩
          · refine ⟨k + 1, by simpa using hk, by rwa [hshift], ?_,
              by rw [h3]; congr 1; omega⟩
            rw [hshift]
            rcases h2 with h2 | ⟨j, hj, hjeq⟩
            · exact Or.inl h2
            · exact Or.inr ⟨j + 1, by omega, by rwa [hshift]⟩
        · rintro ⟨k, hk, h1, h2, h3⟩
          cases k with
          | zero => exact Or.inl (by simpa using h3)
          | succ k' =>
            rw [hshift] at h1
            right
            refine ⟨k', by simpa using hk, h1, ?_, by rw [h3]; congr 1; omega⟩
            rcases h2 with h2 | ⟨j, hj, hjeq⟩
            · exact Or.inl h2
            · cases j with
              | zero =>
                rw [hzero] at hjeq
                rw [hshift] at hjeq
                exact Or.inl (by rw [← hjeq]; exact hcmem)
              | succ j' =>
                rw [hshift] at hjeq
                rw [hshift] at hjeq
                exact Or.inr ⟨j', by omega, hjeq⟩
      · rw [if_neg hc]
        rw [Bool.not_eq_true, List.contains_eq_any_beq] at hc
        have hcnot : getVal r col ∉ seen := by
          intro hmem
          have hany : seen.any (fun x => getVal r col == x) = true := by
            rw [List.any_eq_true]
            exact ⟨getVal r col, hmem, by simp⟩
          rw [hany] at hc; cases hc
        rw [ih (i0 + 1) (getVal r col :: seen)]
        constructor
        · rintro ⟨k, hk, h1, h2, h3⟩
          refine ⟨k + 1, by simpa using hk, by rwa [hshift], ?_,
            by rw [h3]; congr 1; omega⟩
          rw [hshift]
          rcases h2 with h2 | ⟨j, hj, hjeq⟩
          · rcases List.mem_cons.mp h2 with h2 | h2
            · exact Or.inr ⟨0, by omega, by rw [hzero, h2]⟩
            · exact Or.inl h2
          · exact Or.inr ⟨j + 1, by omega, by rwa [hshift]⟩
        · rintro ⟨k, hk, h1, h2, h3⟩
          cases k with
          | zero =>
            rw [hzero] at h2
            rcases h2 with h2 | ⟨j, hj, _⟩
            · exact absurd h2 hcnot
            · omega
          | succ k' =>
            rw [hshift] at h1
            refine ⟨k', by simpa using hk, h1, ?_, by rw [h3]; congr 1; omega⟩
            rcases h2 with h2 | ⟨j, hj, hjeq⟩
            · exact Or.inl (List.mem_cons_of_mem _ h2)
            · cases j with
              | zero =>
                rw [hzero] at hjeq
                rw [hshift] at hjeq
                exact Or.inl (by rw [← hjeq]; exact List.mem_cons_self _ _)
              | succ j' =>
                rw [hshift] at hjeq
                rw [hshift] at hjeq
                exact Or.inr ⟨j', by omega, hjeq⟩

/-- A parsed file table as stored in `fileTables`. -/
structure FileTable where
  columns : List String
  rows : List Row
deriving Repr

/-- The foreign-key link configuration (`foreignKeyConfig`): `primaryFile`
names the referenced table, `referencedFile` the referencing one, and
`fkCol` the referencing column. -/
structure FKConfig where
  primaryFile : String
  fkCol : String
  referencedFile : String
deriving Repr

/-- The column list of a table: `Object.keys(tableData[0])`. -/
def tableColumns (tableData : List Row) : List String :=
  match tableData with
  | [] => []
  | r :: _ => objKeys r

/-- All checks of `checkViolations` for one column: the type pass always
runs, then the PRIMARY KEY, UNIQUE and NOT NULL passes when the column's
constraint set asks for them. -/
def columnChecks (tableData : List Row) (constraints : List String)
    (dataType col : String) : List Violation :=
  typeScan col dataType tableData
  ++ (if constraints.contains "primary" then pkScan col tableData 0 [] else [])
  ++ (if constraints.contains "unique" then uniqueScan col tableData 0 [] else [])
  ++ (if constraints.contains "notnull" then notNullScan col tableData else [])

/-- The foreign-key pass at the end of `checkViolations` (lines 404-437):
look both tables up, choose the referenced key column (the first column
whose constraint set contains `primary`, else the first column; the empty
string models the JavaScript `null` when there are no columns), run
`checkForeignKeyViolations` and re-wrap its records. -/
def fkPass (fileTables : List (String × FileTable))
    (confirmedConstraints : List (List String)) (cfg : FKConfig) : List Violation :=
  match fileTables.lookup cfg.primaryFile, fileTables.lookup cfg.referencedFile with
  | some primaryTable, some foreignTable =>
    let pkCol :=
      if primaryTable.columns.isEmpty then ""
      else
        match primaryTable.columns.enum.find?
            (fun p => (confirmedConstraints.getD p.1 []).contains "primary") with
        | some p => p.2
        | none => primaryTable.columns.headD ""
    (checkForeignKeyViolations foreignTable.rows primaryTable.rows cfg.fkCol pkCol).map
      (fun v =>
        { row := v.row, col := cfg.fkCol, vtype := "FOREIGN KEY",
          msg := "Value '" ++ valueToString v.value ++ "' not found in " ++
                 cfg.primaryFile ++ "." ++ pkCol })
  | _, _ => []

/-- The declared type of column `idx`: `confirmedTypes[idx] || 'VARCHAR'`
falls back to VARCHAR when the entry is missing or the empty string. -/
def typeAt (confirmedTypes : List String) (idx : Nat) : String :=
  let t := confirmedTypes.getD idx ""
  if t = "" then "VARCHAR" else t

/-- The guarded foreign-key portion of `checkViolations`: the pass runs
only when a configuration is present with all three fields non-empty
(JavaScript truthiness of the three strings). -/
def fkPart (fileTables : List (String × FileTable))
    (confirmedConstraints : List (List String)) :
    Option FKConfig → List Violation
  | some cfg =>
    if cfg.primaryFile ≠ "" ∧ cfg.fkCol ≠ "" ∧ cfg.referencedFile ≠ "" then
      fkPass fileTables confirmedConstraints cfg
    else []
  | none => []

/-- The function `checkViolations(tableData, confirmedConstraints,
fileTables, foreignKeyConfig, confirmedTypes = [])` of `exportUtils.js`
lines 340-440. -/
def checkViolations (tableData : List Row) (confirmedConstraints : List (List String))
    (fileTables : List (String × FileTable)) (foreignKeyConfig : Option FKConfig)
    (confirmedTypes : List String := []) : List Violation :=
  if tableData.isEmpty || confirmedConstraints.isEmpty then []
  else
    ((tableColumns tableData).enum).flatMap (fun p =>
      columnChecks tableData (confirmedConstraints.getD p.1 [])
        (typeAt confirmedTypes p.1) p.2)
    ++ fkPart fileTables confirmedConstraints foreignKeyConfig

theorem rowAt_eq_get (rows : List Row) (k : Nat) (hk : k < rows.length) :
    rowAt rows k = rows.get ⟨k, hk⟩ := by
  simp [rowAt, List.getD_eq_getElem?_getD, List.getElem?_eq_getElem hk]

theorem mem_typeScan_iff (col dataType : String) (rows : List Row) (v : Violation) :
    v ∈ typeScan col dataType rows ↔
      ∃ k, k < rows.length ∧
        validateDataType (getVal (rowAt rows k) col) dataType = false ∧
        v = mkTypeViol k col dataType (getVal (rowAt rows k) col) := by
  unfold typeScan
  rw [mem_idxScan_iff]
  constructor
  · rintro ⟨k, hk, hf⟩
    rw [← rowAt_eq_get rows k hk] at hf
    by_cases hval : validateDataType (getVal (rowAt rows k) col) dataType = true
    · rw [if_pos hval] at hf; cases hf
    · rw [Bool.not_eq_true] at hval
      rw [if_neg (by rw [hval]; exact Bool.false_ne_true)] at hf
      exact ⟨k, hk, hval, by simpa using (Option.some_inj.mp hf).symm⟩
  · rintro ⟨k, hk, hval, hv⟩
    refine ⟨k, hk, ?_⟩
    rw [← rowAt_eq_get rows k hk]
    rw [if_neg (by rw [hval]; exact Bool.false_ne_true)]
    simp [hv]

theorem mem_notNullScan_iff (col : String) (rows : List Row) (v : Violation) :
    v ∈ notNullScan col rows ↔
      ∃ k, k < rows.length ∧
        isEmptyVal (getVal (rowAt rows k) col) = true ∧
        v = notNullViol col k := by
  unfold notNullScan
  rw [mem_idxScan_iff]
  constructor
  · rintro ⟨k, hk, hf⟩
    rw [← rowAt_eq_get rows k hk] at hf
    by_cases hval : isEmptyVal (getVal (rowAt rows k) col) = true
    · rw [if_pos hval] at hf
      exact ⟨k, hk, hval, by simpa using (Option.some_inj.mp hf).symm⟩
    · rw [if_neg hval] at hf; cases hf
  · rintro ⟨k, hk, hval, hv⟩
    refine ⟨k, hk, ?_⟩
    rw [← rowAt_eq_get rows k hk, if_pos hval]
    simp [hv]

theorem mem_columnChecks_iff (T : List Row) (cs : List String) (dt col : String)
    (v : Violation) :
    v ∈ columnChecks T cs dt col ↔
      (v ∈ typeScan col dt T ∨
       (cs.contains "primary" = true ∧ v ∈ pkScan col T 0 []) ∨
       (cs.contains "unique" = true ∧ v ∈ uniqueScan col T 0 []) ∨
       (cs.contains "notnull" = true ∧ v ∈ notNullScan col T)) := by
  unfold columnChecks
  by_cases h1 : cs.contains "primary" = true <;>
    by_cases h2 : cs.contains "unique" = true <;>
      by_cases h3 : cs.contains "notnull" = true <;>
        simp [h1, h2, h3, List.mem_append, or_assoc]

theorem mem_checkViolations_iff (T : List Row) (C : List (List String))
    (ft : List (String × FileTable)) (cfg : Option FKConfig) (ty : List String)
    (v : Violation) :
    v ∈ checkViolations T C ft cfg ty ↔
      ((T.isEmpty || C.isEmpty) = false ∧
       ((∃ idx col, (tableColumns T).get? idx = some col ∧
          v ∈ columnChecks T (C.getD idx []) (typeAt ty idx) col) ∨
        v ∈ fkPart ft C cfg)) := by
  unfold checkViolations
  by_cases hg : (T.isEmpty || C.isEmpty) = true
  · simp [hg]
  · rw [Bool.not_eq_true] at hg
    rw [if_neg (by rw [hg]; exact Bool.false_ne_true)]
    simp only [hg, true_and, List.mem_append, List.mem_flatMap]
    constructor
    · rintro (⟨p, hp, hv⟩ | hv)
      · rcases p with ⟨idx, col⟩
        rw [List.mem_enum_iff_getElem?] at hp
        exact Or.inl ⟨idx, col, by rw [List.get?_eq_getElem?]; exact hp, hv⟩
      · exact Or.inr hv
    · rintro (⟨idx, col, hcol, hv⟩ | hv)
      · refine Or.inl ⟨(idx, col), ?_, hv⟩
        rw [List.mem_enum_iff_getElem?]
        rw [List.get?_eq_getElem?] at hcol
        exact hcol
      · exact Or.inr hv

theorem fields_of_mem_typeScan (col dt : String) (rows : List Row) (v : Violation)
    (hv : v ∈ typeScan col dt rows) : v.vtype = "TYPE MISMATCH" := by
  rcases (mem_typeScan_iff col dt rows v).mp hv with ⟨k, _, _, hveq⟩
  rw [hveq]; rfl

theorem fields_of_mem_pkScan (col : String) (rows : List Row) (i0 : Nat)
    (seen : List Value) (v : Violation) (hv : v ∈ pkScan col rows i0 seen) :
    v.vtype = "PRIMARY KEY" ∧ v.col = col := by
  rcases (mem_pkScan_iff col rows i0 seen v).mp hv with ⟨k, _, ⟨_, hveq⟩ | ⟨_, _, hveq⟩⟩ <;>
    rw [hveq] <;> exact ⟨rfl, rfl⟩

theorem fields_of_mem_uniqueScan (col : String) (rows : List Row) (i0 : Nat)
    (seen : List Value) (v : Violation) (hv : v ∈ uniqueScan col rows i0 seen) :
    v.vtype = "UNIQUE" ∧ v.col = col := by
  rcases (mem_uniqueScan_iff col rows i0 seen v).mp hv with ⟨k, _, _, _, hveq⟩
  rw [hveq]; exact ⟨rfl, rfl⟩

theorem fields_of_mem_notNullScan (col : String) (rows : List Row) (v : Violation)
    (hv : v ∈ notNullScan col rows) : v.vtype = "NOT NULL" ∧ v.col = col := by
  rcases (mem_notNullScan_iff col rows v).mp hv with ⟨k, _, _, hveq⟩
  rw [hveq]; exact ⟨rfl, rfl⟩

theorem fields_of_mem_fkPart (ft : List (String × FileTable))
    (C : List (List String)) (cfg : Option FKConfig) (v : Violation)
    (hv : v ∈ fkPart ft C cfg) : v.vtype = "FOREIGN KEY" := by
  match cfg with
  | none => cases hv
  | some c =>
    simp only [fkPart] at hv
    by_cases hg : c.primaryFile ≠ "" ∧ c.fkCol ≠ "" ∧ c.referencedFile ≠ ""
    · rw [if_pos hg] at hv
      unfold fkPass at hv
      rcases hlp : List.lookup c.primaryFile ft with _ | pt <;>
        rcases hlf : List.lookup c.referencedFile ft with _ | ft' <;>
          rw [hlp, hlf] at hv
      · cases hv
      · cases hv
      · cases hv
      · rcases List.mem_map.mp hv with ⟨w, _, hw⟩
        rw [← hw]
    · rw [if_neg hg] at hv
      cases hv

theorem guard_false_of_nonempty (T : List Row) (C : List (List String))
    (idx : Nat) (hpk : (C.getD idx []).contains "primary" = true)
    (hT : 0 < T.length) : (T.isEmpty || C.isEmpty) = false := by
  have hC : C ≠ [] := by
    intro h
    rw [h] at hpk
    simp [List.getD] at hpk
  cases T with
  | nil => simp at hT
  | cons r rest => simp [hC]

/-- C2: `checkViolations` flags a PRIMARY KEY violation at row `i` of a
column whose constraint set contains `primary` exactly when the value
there is null/empty (message "Null/empty value") or equals the non-null
value of some earlier row in that column (message "Duplicate value"). -/
theorem C2_checkViolations_primary_iff (T : List Row) (C : List (List String))
    (ft : List (String × FileTable)) (cfg : Option FKConfig) (ty : List String)
    (idx : Nat) (col : String)
    (hcol : (tableColumns T).get? idx = some col)
    (hpk : (C.getD idx []).contains "primary" = true)
    (i : Nat) (hi : i < T.length) :
    (pkNullViol col i ∈ checkViolations T C ft cfg ty ↔
       isEmptyVal (getVal (rowAt T i) col) = true) ∧
    (pkDupViol col i ∈ checkViolations T C ft cfg ty ↔
       (isEmptyVal (getVal (rowAt T i) col) = false ∧
        ∃ j, j < i ∧ isEmptyVal (getVal (rowAt T j) col) = false ∧
          getVal (rowAt T j) col = getVal (rowAt T i) col)) := by
  have hguard := guard_false_of_nonempty T C idx hpk (Nat.lt_of_le_of_lt (Nat.zero_le i) hi)
  constructor
  · constructor
    · intro hv
      rcases (mem_checkViolations_iff T C ft cfg ty _).mp hv with ⟨_, hin | hfk⟩
      · rcases hin with ⟨idx', col', hcol', hcc⟩
        rcases (mem_columnChecks_iff _ _ _ _ _).mp hcc with
          hts | ⟨_, hpkm⟩ | ⟨_, hus⟩ | ⟨_, hns⟩
        · have := fields_of_mem_typeScan _ _ _ _ hts
          simp [pkNullViol] at this
        · rcases (mem_pkScan_iff _ _ _ _ _).mp hpkm with
            ⟨k, hk, ⟨hke, hveq⟩ | ⟨_, _, hveq⟩⟩
          · have hik : k = i ∧ col' = col := by
              unfold pkNullViol at hveq
              simp only [Violation.mk.injEq] at hveq
              constructor
              · omega
              · exact hveq.2.1.symm
            rw [hik.1, hik.2] at hke
            exact hke
          · unfold pkNullViol pkDupViol at hveq
            simp only [Violation.mk.injEq] at hveq
            exact absurd hveq.2.2.2 (by decide)
        · have := (fields_of_mem_uniqueScan _ _ _ _ _ hus).1
          simp [pkNullViol] at this
        · have := (fields_of_mem_notNullScan _ _ _ hns).1
          simp [pkNullViol] at this
      · have := fields_of_mem_fkPart _ _ _ _ hfk
        simp [pkNullViol] at this
    · intro hempty
      refine (mem_checkViolations_iff T C ft cfg ty _).mpr ⟨hguard, Or.inl
        ⟨idx, col, hcol, (mem_columnChecks_iff _ _ _ _ _).mpr (Or.inr (Or.inl
          ⟨hpk, (mem_pkScan_iff _ _ _ _ _).mpr
            ⟨i, hi, Or.inl ⟨hempty, by rw [Nat.zero_add]⟩⟩⟩))⟩⟩
  · constructor
    · intro hv
      rcases (mem_checkViolations_iff T C ft cfg ty _).mp hv with ⟨_, hin | hfk⟩
      · rcases hin with ⟨idx', col', hcol', hcc⟩
        rcases (mem_columnChecks_iff _ _ _ _ _).mp hcc with
          hts | ⟨_, hpkm⟩ | ⟨_, hus⟩ | ⟨_, hns⟩
        · have := fields_of_mem_typeScan _ _ _ _ hts
          simp [pkDupViol] at this
        · rcases (mem_pkScan_iff _ _ _ _ _).mp hpkm with
            ⟨k, hk, ⟨_, hveq⟩ | ⟨hke, hseen, hveq⟩⟩
          · unfold pkNullViol pkDupViol at hveq
            simp only [Violation.mk.injEq] at hveq
            exact absurd hveq.2.2.2 (by decide)
          · have hik : k = i ∧ col' = col := by
              unfold pkDupViol at hveq
              simp only [Violation.mk.injEq] at hveq
              constructor
              · omega
              · exact hveq.2.1.symm
            rw [hik.1, hik.2] at hke hseen
            rcases hseen with hs | ⟨j, hj, hjeq⟩
            · simp at hs
            · refine ⟨hke, j, hj, ?_, hjeq⟩
              rw [hjeq]
              exact hke
        · have := (fields_of_mem_uniqueScan _ _ _ _ _ hus).1
          simp [pkDupViol] at this
        · have := (fields_of_mem_notNullScan _ _ _ hns).1
          simp [pkDupViol] at this
      · have := fields_of_mem_fkPart _ _ _ _ hfk
        simp [pkDupViol] at this
    · rintro ⟨hke, j, hj, _, hjeq⟩
      refine (mem_checkViolations_iff T C ft cfg ty _).mpr ⟨hguard, Or.inl
        ⟨idx, col, hcol, (mem_columnChecks_iff _ _ _ _ _).mpr (Or.inr (Or.inl
          ⟨hpk, (mem_pkScan_iff _ _ _ _ _).mpr
            ⟨i, hi, Or.inr ⟨hke, Or.inr ⟨j, hj, hjeq⟩, by rw [Nat.zero_add]⟩⟩⟩))⟩⟩

/-- Witness for C2: the table with `id` values '1', '', '1' under a
primary constraint flags row 2 as null and row 3 as a duplicate of row 1. -/
theorem C2_checkViolations_primary_iff_witness :
    pkNullViol "id" 1 ∈ checkViolations
      [[("id", Value.vstr "1")], [("id", Value.vstr "")], [("id", Value.vstr "1")]]
      [["primary"]] [] none [] ∧
    pkDupViol "id" 2 ∈ checkViolations
      [[("id", Value.vstr "1")], [("id", Value.vstr "")], [("id", Value.vstr "1")]]
      [["primary"]] [] none [] := by
  constructor
  · exact (C2_checkViolations_primary_iff
      [[("id", Value.vstr "1")], [("id", Value.vstr "")], [("id", Value.vstr "1")]]
      [["primary"]] [] none [] 0 "id" (by decide) (by decide) 1 (by decide)).1.mpr
      (by decide)
  · exact (C2_checkViolations_primary_iff
      [[("id", Value.vstr "1")], [("id", Value.vstr "")], [("id", Value.vstr "1")]]
      [["primary"]] [] none [] 0 "id" (by decide) (by decide) 2 (by decide)).2.mpr
      ⟨by decide, 0, by decide, by decide, by decide⟩

/-- C10: duplicate detection for PRIMARY KEY and UNIQUE constraints
compares cell values by strict set membership without coercion or
trimming: a Duplicate-value violation at a row implies some strictly
earlier row holds the identical tagged value in that column; and the
column holding the number 1, the string '1' and the string ' 1' under
both constraints yields no violations at all. -/
theorem C10_duplicate_strict_equality :
    (∀ (T : List Row) (C : List (List String)) (ft : List (String × FileTable))
       (cfg : Option FKConfig) (ty : List String) (v : Violation),
      v ∈ checkViolations T C ft cfg ty →
      (v.vtype = "PRIMARY KEY" ∨ v.vtype = "UNIQUE") →
      v.msg = "Duplicate value" →
      ∃ (i j : Nat), j < i ∧ v.row = (i : Int) + 1 ∧
        isEmptyVal (getVal (rowAt T i) v.col) = false ∧
        getVal (rowAt T j) v.col = getVal (rowAt T i) v.col) ∧
    checkViolations
      [[("a", Value.vnum 1)], [("a", Value.vstr "1")], [("a", Value.vstr " 1")]]
      [["primary", "unique"]] [] none [] = [] := by
  constructor
  · intro T C ft cfg ty v hv htype hmsg
    rcases (mem_checkViolations_iff T C ft cfg ty v).mp hv with ⟨_, hin | hfk⟩
    · rcases hin with ⟨idx', col', hcol', hcc⟩
      rcases (mem_columnChecks_iff _ _ _ _ _).mp hcc with
        hts | ⟨_, hpkm⟩ | ⟨_, hus⟩ | ⟨_, hns⟩
      · have h := fields_of_mem_typeScan _ _ _ _ hts
        rcases htype with ht | ht <;> rw [h] at ht <;> exact absurd ht (by decide)
      · rcases (mem_pkScan_iff _ _ _ _ _).mp hpkm with
          ⟨k, hk, ⟨_, hveq⟩ | ⟨hke, hseen, hveq⟩⟩
        · rw [hveq] at hmsg
          simp [pkNullViol] at hmsg
        · rcases hseen with hs | ⟨j, hj, hjeq⟩
          · simp at hs
          · refine ⟨k, j, hj, ?_, ?_, ?_⟩
            · rw [hveq]
              simp only [pkDupViol]
              omega
            · rw [hveq]
              exact hke
            · rw [hveq]
              exact hjeq
      · rcases (mem_uniqueScan_iff _ _ _ _ _).mp hus with ⟨k, hk, hke, hseen, hveq⟩
        rcases hseen with hs | ⟨j, hj, hjeq⟩
        · simp at hs
        · refine ⟨k, j, hj, ?_, ?_, ?_⟩
          · rw [hveq]
            simp only [uniqueDupViol]
            omega
          · rw [hveq]
            exact hke
          · rw [hveq]
            exact hjeq
      · have h := (fields_of_mem_notNullScan _ _ _ hns).1
        rcases htype with ht | ht <;> rw [h] at ht <;> exact absurd ht (by decide)
    · have h := fields_of_mem_fkPart _ _ _ _ hfk
      rcases htype with ht | ht <;> rw [h] at ht <;> exact absurd ht (by decide)
  · decide

/-- Witness for C10: the duplicate flagged on rows ['x','x'] comes with an
identical earlier value. -/
theorem C10_duplicate_strict_equality_witness :
    ∃ (i j : Nat), j < i ∧ (pkDupViol "a" 1).row = (i : Int) + 1 ∧
      isEmptyVal (getVal (rowAt [[("a", Value.vstr "x")], [("a", Value.vstr "x")]] i)
        (pkDupViol "a" 1).col) = false ∧
      getVal (rowAt [[("a", Value.vstr "x")], [("a", Value.vstr "x")]] j)
        (pkDupViol "a" 1).col =
      getVal (rowAt [[("a", Value.vstr "x")], [("a", Value.vstr "x")]] i)
        (pkDupViol "a" 1).col :=
  C10_duplicate_strict_equality.1
    [[("a", Value.vstr "x")], [("a", Value.vstr "x")]]
    [["primary"]] [] none [] (pkDupViol "a" 1) (by decide) (by decide) (by decide)

/-- The function `updateViolationsAfterDelete(checkResults, deleteIndex)`
of `editUtils.js` lines 51-65: drop violations of the deleted row, shift
the later ones up by one. -/
def updateViolationsAfterDelete (checkResults : List Violation) (deleteIndex : Nat) :
    List Violation :=
  if checkResults.isEmpty then []
  else
    (checkResults.filter (fun v => v.row - 1 ≠ (deleteIndex : Int))).map
      (fun v => if v.row - 1 > (deleteIndex : Int) then { v with row := v.row - 1 } else v)

/-- The body of `updateViolationsAfterDelete` without the redundant
empty-list guard (both agree on every input). -/
def adCore (l : List Violation) (d : Nat) : List Violation :=
  (l.filter (fun v => v.row - 1 ≠ (d : Int))).map
    (fun v => if v.row - 1 > (d : Int) then { v with row := v.row - 1 } else v)

theorem updateViolationsAfterDelete_eq_adCore (l : List Violation) (d : Nat) :
    updateViolationsAfterDelete l d = adCore l d := by
  cases l with
  | nil => rfl
  | cons v rest => rfl

/-- Counterexample for C3: for the two-row table whose primary column holds
'1' twice, deleting row 0 and adjusting the violation list incrementally
leaves one stale PRIMARY KEY duplicate (shifted to row 1), while
recomputing from scratch on the one-row remainder yields no violations:
the two results differ even as multisets. -/
theorem C3_counterexample :
    updateViolationsAfterDelete
      (checkViolations [[("id", Value.vstr "1")], [("id", Value.vstr "1")]]
        [["primary"]] [] none []) 0 = [pkDupViol "id" 0] ∧
    checkViolations
      (([[("id", Value.vstr "1")], [("id", Value.vstr "1")]] : List Row).eraseIdx 0)
      [["primary"]] [] none [] = [] := by decide

/-- A row-local per-column pass: emit (or not) one violation per row,
depending only on the row's content, with the 1-based row index attached.
Both the type pass and the NOT NULL pass have this shape. -/
def rowLocalScan (q : Row → Bool) (base : Row → Violation)
    (rows : List Row) (i0 : Nat) : List Violation :=
  idxScan (fun i r => if q r then some { base r with row := (i : Int) + 1 } else none)
    rows i0

theorem rowLocalScan_nil (q : Row → Bool) (base : Row → Violation) (i0 : Nat) :
    rowLocalScan q base [] i0 = [] := rfl

theorem idxScan_cons {α β : Type} (f : Nat → α → Option β) (a : α)
    (rest : List α) (i : Nat) :
    idxScan f (a :: rest) i = (f i a).toList ++ idxScan f rest (i + 1) := by
  cases hf : f i a <;> simp [idxScan, hf]

theorem rowLocalScan_cons (q : Row → Bool) (base : Row → Violation)
    (r : Row) (rest : List Row) (i0 : Nat) :
    rowLocalScan q base (r :: rest) i0 =
      (if q r then [{ base r with row := (i0 : Int) + 1 }] else []) ++
      rowLocalScan q base rest (i0 + 1) := by
  unfold rowLocalScan
  rw [idxScan_cons]
  by_cases hq : q r = true <;> simp [hq]

theorem typeScan_eq_rowLocalScan (col dt : String) (rows : List Row) :
    typeScan col dt rows =
      rowLocalScan (fun r => !validateDataType (getVal r col) dt)
        (fun r => mkTypeViol 0 col dt (getVal r col)) rows 0 := by
  unfold typeScan rowLocalScan
  congr 1
  funext i r
  by_cases h : validateDataType (getVal r col) dt = true
  · simp [h]
  · rw [Bool.not_eq_true] at h
    simp only [h, Bool.false_eq_true, if_false, Bool.not_false, if_true]
    rfl

theorem notNullScan_eq_rowLocalScan (col : String) (rows : List Row) :
    notNullScan col rows =
      rowLocalScan (fun r => isEmptyVal (getVal r col))
        (fun r => notNullViol col 0) rows 0 := by
  unfold notNullScan rowLocalScan
  congr 1

theorem adCore_append (l1 l2 : List Violation) (d : Nat) :
    adCore (l1 ++ l2) d = adCore l1 d ++ adCore l2 d := by
  unfold adCore
  rw [List.filter_append, List.map_append]

theorem adCore_flatMap {α : Type} (l : List α) (g : α → List Violation) (d : Nat) :
    adCore (l.flatMap g) d = l.flatMap (fun x => adCore (g x) d) := by
  induction l with
  | nil => rfl
  | cons x rest ih =>
    rw [List.flatMap_cons, List.flatMap_cons, adCore_append, ih]

theorem mem_rowLocalScan_row (q : Row → Bool) (base : Row → Violation)
    (rows : List Row) (i0 : Nat) (v : Violation) (hv : v ∈ rowLocalScan q base rows i0) :
    ∃ m, m < rows.length ∧ v.row = ((i0 + m : Nat) : Int) + 1 := by
  rcases (mem_idxScan_iff _ _ _ _).mp hv with ⟨m, hm, hf⟩
  by_cases hq : q (rows.get ⟨m, hm⟩) = true
  · rw [if_pos hq] at hf
    exact ⟨m, hm, by rw [← Option.some_inj.mp hf]⟩
  · rw [if_neg hq] at hf
    cases hf

theorem adCore_of_all_gt (l : List Violation) (d : Nat)
    (h : ∀ v ∈ l, (d : Int) < v.row - 1) :
    adCore l d = l.map (fun v => { v with row := v.row - 1 }) := by
  induction l with
  | nil => rfl
  | cons v rest ih =>
    have hv := h v (List.mem_cons_self _ _)
    unfold adCore
    rw [List.filter_cons, if_pos (by simpa using (by omega : ¬(v.row - 1 = (d : Int))))]
    rw [List.map_cons]
    rw [if_pos (by omega)]
    congr 1
    exact ih (fun w hw => h w (List.mem_cons_of_mem _ hw))

theorem adCore_of_all_eq (l : List Violation) (d : Nat)
    (h : ∀ v ∈ l, v.row - 1 = (d : Int)) :
    adCore l d = [] := by
  induction l with
  | nil => rfl
  | cons v rest ih =>
    have hv := h v (List.mem_cons_self _ _)
    unfold adCore
    rw [List.filter_cons, if_neg (by simp [hv])]
    exact ih (fun w hw => h w (List.mem_cons_of_mem _ hw))

theorem adCore_singleton_lt (v : Violation) (d : Nat) (h : v.row - 1 < (d : Int)) :
    adCore [v] d = [v] := by
  unfold adCore
  rw [List.filter_cons, if_pos (by simpa using (by omega : ¬(v.row - 1 = (d : Int)))),
    List.filter_nil, List.map_cons, List.map_nil, if_neg (by omega)]

theorem map_dec_rowLocalScan (q : Row → Bool) (base : Row → Violation)
    (rows : List Row) (i0 : Nat) :
    (rowLocalScan q base rows (i0 + 1)).map
        (fun v => { v with row := v.row - 1 }) =
      rowLocalScan q base rows i0 := by
  induction rows generalizing i0 with
  | nil => rfl
  | cons r rest ih =>
    rw [rowLocalScan_cons, rowLocalScan_cons, List.map_append, ih (i0 + 1)]
    congr 1
    by_cases hq : q r = true
    · rw [if_pos hq]
      rw [if_pos hq]
      rw [List.map_cons, List.map_nil]
      congr 1
      simp only [Violation.mk.injEq, and_true, true_and, eq_self_iff_true]
      push_cast
      ring
    · rw [if_neg hq]
      rw [if_neg hq]
      rfl

theorem adCore_rowLocalScan (q : Row → Bool) (base : Row → Violation) :
    ∀ (rows : List Row) (i0 k : Nat), k < rows.length →
      adCore (rowLocalScan q base rows i0) (i0 + k) =
        rowLocalScan q base (rows.eraseIdx k) i0 := by
  intro rows
  induction rows with
  | nil => intro i0 k hk; simp at hk
  | cons r rest ih =>
    intro i0 k hk
    cases k with
    | zero =>
      rw [List.eraseIdx_cons_zero, rowLocalScan_cons, adCore_append]
      have hhead : adCore
          (if q r then [{ base r with row := (i0 : Int) + 1 }] else []) (i0 + 0) = [] := by
        by_cases hq : q r = true
        · rw [if_pos hq]
          apply adCore_of_all_eq
          intro v hv
          rcases List.mem_singleton.mp hv with rfl
          show ((i0 : Int) + 1) - 1 = ((i0 + 0 : Nat) : Int)
          push_cast
          ring
        · rw [if_neg hq]
          rfl
      rw [hhead, List.nil_append]
      rw [adCore_of_all_gt]
      · exact map_dec_rowLocalScan q base rest i0
      · intro v hv
        rcases mem_rowLocalScan_row q base rest (i0 + 1) v hv with ⟨m, _, hrow⟩
        rw [hrow]
        push_cast
        omega
    | succ k' =>
      rw [List.eraseIdx_cons_succ, rowLocalScan_cons, rowLocalScan_cons, adCore_append]
      congr 1
      · by_cases hq : q r = true
        · rw [if_pos hq]
          exact adCore_singleton_lt _ _
            (by show ((i0 : Int) + 1) - 1 < _; push_cast; omega)
        · rw [if_neg hq]
          rfl
      · have hih := ih (i0 + 1) k' (by simpa using Nat.lt_of_succ_lt_succ hk)
        rw [← hih]
        congr 1
        omega

theorem getD_no_pk_unique (C : List (List String))
    (hC : ∀ cs ∈ C, cs.contains "primary" = false ∧ cs.contains "unique" = false)
    (idx : Nat) :
    (C.getD idx []).contains "primary" = false ∧
    (C.getD idx []).contains "unique" = false := by
  by_cases h : idx < C.length
  · have he : C.getD idx [] ∈ C := by
      rw [List.getD_eq_getElem?_getD, List.getElem?_eq_getElem h]
      exact List.getElem_mem h
    exact hC _ he
  · have he : C.getD idx [] = [] := by
      rw [List.getD_eq_getElem?_getD, List.getElem?_eq_none (by omega)]
      rfl
    rw [he]
    exact ⟨rfl, rfl⟩

theorem columnChecks_no_key (T : List Row) (cs : List String) (dt col : String)
    (h1 : cs.contains "primary" = false) (h2 : cs.contains "unique" = false) :
    columnChecks T cs dt col =
      typeScan col dt T ++
      (if cs.contains "notnull" then notNullScan col T else []) := by
  unfold columnChecks
  rw [if_neg (by rw [h1]; exact Bool.false_ne_true),
    if_neg (by rw [h2]; exact Bool.false_ne_true)]
  simp

theorem tableColumns_eraseIdx (T : List Row) (d : Nat)
    (hcols : ∀ r ∈ T, objKeys r = tableColumns T) (hne : T.eraseIdx d ≠ []) :
    tableColumns (T.eraseIdx d) = tableColumns T := by
  cases hE : T.eraseIdx d with
  | nil => exact absurd hE hne
  | cons r rest =>
    show objKeys r = tableColumns T
    apply hcols
    have hr : r ∈ T.eraseIdx d := by rw [hE]; exact List.mem_cons_self _ _
    exact List.eraseIdx_subset T d hr

theorem row_bound_no_key (T : List Row) (C : List (List String))
    (ft : List (String × FileTable)) (ty : List String) (v : Violation)
    (hC : ∀ cs ∈ C, cs.contains "primary" = false ∧ cs.contains "unique" = false)
    (hv : v ∈ checkViolations T C ft none ty) :
    ∃ k, k < T.length ∧ v.row = (k : Int) + 1 := by
  rcases (mem_checkViolations_iff T C ft none ty v).mp hv with ⟨_, hin | hfk⟩
  · rcases hin with ⟨idx, col, _, hcc⟩
    rcases (mem_columnChecks_iff _ _ _ _ _).mp hcc with
      hts | ⟨hp, _⟩ | ⟨hu, _⟩ | ⟨_, hns⟩
    · rcases (mem_typeScan_iff _ _ _ _).mp hts with ⟨k, hk, _, hveq⟩
      exact ⟨k, hk, by rw [hveq]; rfl⟩
    · rw [(getD_no_pk_unique C hC idx).1] at hp
      cases hp
    · rw [(getD_no_pk_unique C hC idx).2] at hu
      cases hu
    · rcases (mem_notNullScan_iff _ _ _).mp hns with ⟨k, hk, _, hveq⟩
      exact ⟨k, hk, by rw [hveq]; rfl⟩
  · exact absurd hfk (List.not_mem_nil v)

/-- C3 amended: the incremental adjustment `updateViolationsAfterDelete`
coincides with recomputing `checkViolations` from scratch on the table
with row `d` removed, provided the violations are genuinely row-local:
no column carries a `primary` or `unique` constraint (their duplicate
detection depends on the other rows) and no foreign-key link is
configured.  TYPE MISMATCH and NOT NULL violations are covered, and the
result is equality of the violation lists themselves. -/
theorem C3_afterDelete_recompute_rowlocal (T : List Row) (C : List (List String))
    (ft : List (String × FileTable)) (ty : List String) (d : Nat) (hd : d < T.length)
    (hcols : ∀ r ∈ T, objKeys r = tableColumns T)
    (hC : ∀ cs ∈ C, cs.contains "primary" = false ∧ cs.contains "unique" = false) :
    updateViolationsAfterDelete (checkViolations T C ft none ty) d =
      checkViolations (T.eraseIdx d) C ft none ty := by
  rw [updateViolationsAfterDelete_eq_adCore]
  have hTne : T ≠ [] := by
    intro h
    rw [h] at hd
    simp at hd
  by_cases hCnil : C.isEmpty = true
  · have h1 : checkViolations T C ft none ty = [] := by
      unfold checkViolations
      rw [if_pos (by simp [hCnil])]
    have h2 : checkViolations (T.eraseIdx d) C ft none ty = [] := by
      unfold checkViolations
      rw [if_pos (by simp [hCnil])]
    rw [h1, h2]
    rfl
  · rw [Bool.not_eq_true] at hCnil
    by_cases hTE : T.eraseIdx d = []
    · have hlen0 : (T.eraseIdx d).length = 0 := by rw [hTE]; rfl
      rw [List.length_eraseIdx_of_lt hd] at hlen0
      have hRHS : checkViolations (T.eraseIdx d) C ft none ty = [] := by
        unfold checkViolations
        rw [if_pos (by rw [hTE]; rfl)]
      rw [hRHS]
      apply adCore_of_all_eq
      intro v hv
      rcases row_bound_no_key T C ft ty v hC hv with ⟨k, hk, hrow⟩
      rw [hrow]
      have hk0 : k = 0 := by omega
      have hd0 : d = 0 := by omega
      rw [hk0, hd0]
      push_cast
      try ring
    · have hguardT : (T.isEmpty || C.isEmpty) = false := by
        cases T with
        | nil => exact absurd rfl hTne
        | cons r rest => simp [hCnil]
      have hguardT' : ((T.eraseIdx d).isEmpty || C.isEmpty) = false := by
        cases hE : T.eraseIdx d with
        | nil => exact absurd hE hTE
        | cons r rest => simp [hCnil]
      unfold checkViolations
      rw [if_neg (by rw [hguardT]; exact Bool.false_ne_true),
        if_neg (by rw [hguardT']; exact Bool.false_ne_true)]
      rw [show fkPart ft C none = [] from rfl, List.append_nil, List.append_nil]
      rw [adCore_flatMap]
      rw [tableColumns_eraseIdx T d hcols hTE]
      congr 1
      funext p
      obtain ⟨idx, col⟩ := p
      have hc' := getD_no_pk_unique C hC idx
      rw [columnChecks_no_key _ _ _ _ hc'.1 hc'.2,
        columnChecks_no_key _ _ _ _ hc'.1 hc'.2]
      rw [adCore_append]
      congr 1
      · rw [typeScan_eq_rowLocalScan, typeScan_eq_rowLocalScan]
        have h := adCore_rowLocalScan
          (fun r => !validateDataType (getVal r col) (typeAt ty idx))
          (fun r => mkTypeViol 0 col (typeAt ty idx) (getVal r col)) T 0 d hd
        rw [Nat.zero_add] at h
        exact h
      · by_cases hnn : (C.getD idx []).contains "notnull" = true
        · rw [if_pos hnn, if_pos hnn,
            notNullScan_eq_rowLocalScan, notNullScan_eq_rowLocalScan]
          have h := adCore_rowLocalScan
            (fun r => isEmptyVal (getVal r col))
            (fun r => notNullViol col 0) T 0 d hd
          rw [Nat.zero_add] at h
          exact h
        · rw [if_neg hnn, if_neg hnn]
          rfl

/-- Witness for amended C3: deleting row 1 of a three-row table with a
NOT NULL column and an INTEGER-typed column, the incremental update equals
the recomputation. -/
theorem C3_afterDelete_recompute_rowlocal_witness :
    updateViolationsAfterDelete
      (checkViolations
        [[("a", Value.vstr "1"), ("b", Value.vstr "x")],
         [("a", Value.vstr "bad"), ("b", Value.vnull)],
         [("a", Value.vstr ""), ("b", Value.vstr "y")]]
        [[], ["notnull"]] [] none ["INTEGER", "TEXT"]) 1 =
      checkViolations
        (([[("a", Value.vstr "1"), ("b", Value.vstr "x")],
           [("a", Value.vstr "bad"), ("b", Value.vnull)],
           [("a", Value.vstr ""), ("b", Value.vstr "y")]] : List Row).eraseIdx 1)
        [[], ["notnull"]] [] none ["INTEGER", "TEXT"] :=
  C3_afterDelete_recompute_rowlocal
    [[("a", Value.vstr "1"), ("b", Value.vstr "x")],
     [("a", Value.vstr "bad"), ("b", Value.vnull)],
     [("a", Value.vstr ""), ("b", Value.vstr "y")]]
    [[], ["notnull"]] [] ["INTEGER", "TEXT"] 1 (by decide)
    (by intro r hr; fin_cases hr <;> rfl)
    (by intro cs hcs; fin_cases hcs <;> exact ⟨rfl, rfl⟩)

/-- The JavaScript `Date.now()` timestamp appearing in generated file
names, modelled as one fixed instant: no claim depends on the name
strings. -/
def dateNow : Nat := 0

/-- The expression `selectedFile || 'table'`. -/
def fileOr (s : String) : String := if s = "" then "table" else s

/-- A JavaScript `Set` built from a list: membership-preserving, first
occurrence kept in insertion order. -/
def jsSetOfList (l : List String) : List String :=
  l.foldl (fun acc x => if acc.contains x then acc else acc ++ [x]) []

/-- The key string `` `${col}:${value}` `` used by the duplicate filters. -/
def dupKey (col : String) (v : Value) : String := col ++ ":" ++ valueToString v

/-- One row's pass over the duplicate-violated columns with the shared
`seenValues` map: returns whether the row is kept and the updated map
(keys of columns examined before a hit stay recorded, as in the
JavaScript loop). -/
def dupRowCheck (dupCols : List String) (row : Row) (seen : List String) :
    Bool × List String :=
  match dupCols with
  | [] => (true, seen)
  | c :: cs =>
    let key := dupKey c (getVal row c)
    if seen.contains key then (false, seen)
    else dupRowCheck cs row (key :: seen)

/-- The keep-first filter shared by `generateGeneralRepairs` (with no
type-violated rows) and `generatePartialRepairs` (which always retains
type-violated rows): drop null-violated rows, then drop every row whose
`column:value` key in a duplicate-violated column was seen before. -/
def keepFirstRows (typeIdx nullIdx : List Int) (dupCols : List String) :
    List Row → Nat → List String → List Row
  | [], _, _ => []
  | row :: rest, idx, seen =>
    if typeIdx.contains (idx : Int) then
      row :: keepFirstRows typeIdx nullIdx dupCols rest (idx + 1) seen
    else if nullIdx.contains (idx : Int) then
      keepFirstRows typeIdx nullIdx dupCols rest (idx + 1) seen
    else
      match dupRowCheck dupCols row seen with
      | (true, seen') => row :: keepFirstRows typeIdx nullIdx dupCols rest (idx + 1) seen'
      | (false, seen') => keepFirstRows typeIdx nullIdx dupCols rest (idx + 1) seen'

/-- `Map.set` of the JavaScript `lastIndices` map. -/
def mapSet (m : List (String × Nat)) (k : String) (v : Nat) : List (String × Nat) :=
  if (m.lookup k).isSome then m.map (fun p => if p.1 = k then (k, v) else p)
  else m ++ [(k, v)]

/-- The first pass of the keep-last strategy: record, per `column:value`
key, the index of its last occurrence among rows not dropped for null
violations. -/
def lastIndicesMap (nullIdx : List Int) (dupCols : List String) :
    List Row → Nat → List (String × Nat) → List (String × Nat)
  | [], _, m => m
  | row :: rest, idx, m =>
    if nullIdx.contains (idx : Int) then lastIndicesMap nullIdx dupCols rest (idx + 1) m
    else lastIndicesMap nullIdx dupCols rest (idx + 1)
      (dupCols.foldl (fun acc c => mapSet acc (dupKey c (getVal row c)) idx) m)

/-- The keep-last filter: a row survives when, for every duplicate-violated
column, its index is the recorded last index of its `column:value` key
(type-violated rows are always retained, null-violated rows dropped). -/
def keepLastRows (typeIdx nullIdx : List Int) (dupCols : List String)
    (lastIdx : List (String × Nat)) : List Row → Nat → List Row
  | [], _ => []
  | row :: rest, idx =>
    if typeIdx.contains (idx : Int) then
      row :: keepLastRows typeIdx nullIdx dupCols lastIdx rest (idx + 1)
    else if nullIdx.contains (idx : Int) then
      keepLastRows typeIdx nullIdx dupCols lastIdx rest (idx + 1)
    else if dupCols.all (fun c => lastIdx.lookup (dupKey c (getVal row c)) == some idx) then
      row :: keepLastRows typeIdx nullIdx dupCols lastIdx rest (idx + 1)
    else keepLastRows typeIdx nullIdx dupCols lastIdx rest (idx + 1)

/-- The JavaScript `Array.prototype.indexOf` (−1 when absent).  The source
compares row objects by reference; rows are compared structurally here,
which agrees with the reference behaviour whenever the table's rows are
pairwise distinct. -/
def jsIndexOf : List Row → Row → Int
  | [], _ => -1
  | x :: rest, r =>
    if x == r then 0
    else
      let n := jsIndexOf rest r
      if n == -1 then -1 else n + 1

/-- A row of a partial-repair candidate: the original bindings spread
together with the `_needsEdit` flag and the `_violationReasons` strings. -/
structure PRow where
  base : Row
  needsEdit : Bool
  violationReasons : List String
deriving DecidableEq, Repr

/-- A partial-repair candidate file object. -/
structure PartialRepairFile where
  name : String
  rows : List PRow
  columns : List String
  types : List String
  description : String
  isPartialRepair : Bool
  editableRows : List Nat
deriving DecidableEq, Repr

/-- The annotation step of Partial Repairs 1 and 2: look each surviving
row up in the original table (`tableData.indexOf(row)`) and attach the
edit flag and the reason strings of its type violations. -/
def annotateRows (tableData : List Row) (typeIdx : List Int)
    (typeViolations : List Violation) (rows : List Row) : List PRow :=
  rows.map (fun row =>
    let originalIdx := jsIndexOf tableData row
    { base := row,
      needsEdit := typeIdx.contains originalIdx,
      violationReasons := (typeViolations.filter (fun v => v.row - 1 == originalIdx)).map
        (fun v => v.col ++ ": " ++ v.msg) })

/-- The annotation of Partial Repair 3: every original row, flagged from
all violation kinds at its own index. -/
def annotateAll (violations : List Violation) (tableData : List Row) : List PRow :=
  (tableData.enum).map (fun p =>
    { base := p.2,
      needsEdit := violations.any (fun v => v.row - 1 == (p.1 : Int)),
      violationReasons := (violations.filter (fun v => v.row - 1 == (p.1 : Int))).map
        (fun v => v.col ++ ": " ++ v.msg) })

/-- The 0-based indices of the rows flagged edit-needed, in order. -/
def editableIndices (rows : List PRow) : List Nat :=
  idxScan (fun i p => if p.needsEdit then some i else none) rows 0

/-- The function `generatePartialRepairs(violations, tableData,
selectedFile, confirmedTypes)` of `repairGenerator.js` lines 130-295. -/
def generatePartialRepairs (violations : List Violation) (tableData : List Row)
    (selectedFile : String) (confirmedTypes : List String) : List PartialRepairFile :=
  if violations.isEmpty then []
  else
    let nullViolations := violations.filter (fun v => jsIncludes v.msg "Null/empty value")
    let duplicateViolations := violations.filter (fun v => jsIncludes v.msg "Duplicate value")
    let typeViolations := violations.filter
      (fun v => jsIncludes v.msg "Type mismatch" || v.vtype == "TYPE MISMATCH")
    if typeViolations.isEmpty then []
    else
      let nullRowIndices := nullViolations.map (fun v => v.row - 1)
      let typeViolatedRows := typeViolations.map (fun v => v.row - 1)
      let dupCols := jsSetOfList (duplicateViolations.map (fun v => v.col))
      let part12 :=
        if duplicateViolations.length > 0 ∨ nullViolations.length > 0 then
          let partialRepair1 := keepFirstRows typeViolatedRows nullRowIndices dupCols tableData 0 []
          let rows1 := annotateRows tableData typeViolatedRows typeViolations partialRepair1
          let lastIdx := lastIndicesMap nullRowIndices dupCols tableData 0 []
          let partialRepair2 := keepLastRows typeViolatedRows nullRowIndices dupCols lastIdx tableData 0
          let rows2 := annotateRows tableData typeViolatedRows typeViolations partialRepair2
          [{ name := fileOr selectedFile ++ "_partial_repair_1_" ++ toString dateNow ++ ".csv",
             rows := rows1, columns := tableColumns tableData, types := confirmedTypes,
             description := "Partial Repair 1: Remove first duplicate and empty rows, edit type violations (" ++
               toString rows1.length ++ " rows, " ++
               toString (rows1.filter (fun r => r.needsEdit)).length ++ " need editing)",
             isPartialRepair := true, editableRows := editableIndices rows1 },
           { name := fileOr selectedFile ++ "_partial_repair_2_" ++ toString dateNow ++ ".csv",
             rows := rows2, columns := tableColumns tableData, types := confirmedTypes,
             description := "Partial Repair 2: Remove second duplicate and empty rows, edit type violations (" ++
               toString rows2.length ++ " rows, " ++
               toString (rows2.filter (fun r => r.needsEdit)).length ++ " need editing)",
             isPartialRepair := true, editableRows := editableIndices rows2 }]
        else []
      let customRows := annotateAll violations tableData
      part12 ++
        [{ name := fileOr selectedFile ++ "_partial_repair_custom.csv",
           rows := customRows, columns := tableColumns tableData, types := confirmedTypes,
           description := "Partial Repair 3: Custom editing for all violations (" ++
             toString customRows.length ++ " rows, " ++
             toString (customRows.filter (fun r => r.needsEdit)).length ++ " need editing)",
           isPartialRepair := true, editableRows := editableIndices customRows }]

set_option maxRecDepth 8000 in
/-- Counterexample for C1: for the claim's own example table
`[{id:1,age:'25'},{id:2,age:'bad'}]` with `age` declared INTEGER and no
primary key, the violation list holds exactly one TYPE MISMATCH, yet
`generatePartialRepairs` returns one candidate (the custom one), not
three: Partial Repairs 1 and 2 are generated only when a null/empty or
duplicate violation is also present. -/
theorem C1_counterexample :
    checkViolations
      [[("id", Value.vnum 1), ("age", Value.vstr "25")],
       [("id", Value.vnum 2), ("age", Value.vstr "bad")]]
      [[], []] [] none ["INTEGER", "INTEGER"] =
      [mkTypeViol 1 "age" "INTEGER" (Value.vstr "bad")] ∧
    (generatePartialRepairs
      [mkTypeViol 1 "age" "INTEGER" (Value.vstr "bad")]
      [[("id", Value.vnum 1), ("age", Value.vstr "25")],
       [("id", Value.vnum 2), ("age", Value.vstr "bad")]]
      "test.csv" ["INTEGER", "INTEGER"]).length = 1 := by decide

/-- C1 amended: when the violation list holds at least one TYPE MISMATCH
violation, `generatePartialRepairs` returns three candidates (Partial-1
keep-first, Partial-2 keep-last, Partial-3 custom) when a null/empty or
duplicate violation is also present, and only the custom candidate
otherwise; on the concrete table `[{id:1,age:'25'},{id:2,age:'bad'}]`
with `age` INTEGER and no primary key, every returned candidate flags the
`age:'bad'` row edit-needed with a violation-reason string mentioning
`age`. -/
theorem C1_generatePartialRepairs_amended :
    (∀ (violations : List Violation) (tableData : List Row) (file : String)
       (ty : List String),
      violations.filter
        (fun v => jsIncludes v.msg "Type mismatch" || v.vtype == "TYPE MISMATCH") ≠ [] →
      (generatePartialRepairs violations tableData file ty).length =
        (if violations.filter (fun v => jsIncludes v.msg "Duplicate value") ≠ [] ∨
            violations.filter (fun v => jsIncludes v.msg "Null/empty value") ≠ []
         then 3 else 1)) ∧
    (∀ f ∈ generatePartialRepairs
        [mkTypeViol 1 "age" "INTEGER" (Value.vstr "bad")]
        [[("id", Value.vnum 1), ("age", Value.vstr "25")],
         [("id", Value.vnum 2), ("age", Value.vstr "bad")]]
        "test.csv" ["INTEGER", "INTEGER"],
      ∃ p ∈ f.rows, p.base = [("id", Value.vnum 2), ("age", Value.vstr "bad")] ∧
        p.needsEdit = true ∧ ∃ s ∈ p.violationReasons, jsIncludes s "age" = true) := by
  constructor
  · intro violations tableData file ty htype
    have hvne : violations.isEmpty = false := by
      cases violations with
      | nil => simp at htype
      | cons v rest => rfl
    have htne : (violations.filter
        (fun v => jsIncludes v.msg "Type mismatch" || v.vtype == "TYPE MISMATCH")).isEmpty
        = false := by
      by_contra h
      rw [Bool.not_eq_false] at h
      exact htype (by simpa using h)
    unfold generatePartialRepairs
    rw [if_neg (by rw [hvne]; exact Bool.false_ne_true)]
    simp only [htne, Bool.false_eq_true, if_false]
    by_cases hdn : violations.filter (fun v => jsIncludes v.msg "Duplicate value") ≠ [] ∨
        violations.filter (fun v => jsIncludes v.msg "Null/empty value") ≠ []
    · rw [if_pos hdn]
      rw [if_pos (by
        rcases hdn with h | h
        · exact Or.inl (List.length_pos.mpr h)
        · exact Or.inr (List.length_pos.mpr h))]
      simp
    · rw [if_neg hdn]
      push_neg at hdn
      rw [if_neg (by
        push_neg
        exact ⟨by simpa using congrArg List.length hdn.1,
               by simpa using congrArg List.length hdn.2⟩)]
      simp
  · decide

/-- Witness for amended C1: with a duplicate violation alongside the type
mismatch, exactly three candidates come back. -/
theorem C1_generatePartialRepairs_amended_witness :
    (generatePartialRepairs
      [pkDupViol "id" 1, mkTypeViol 1 "age" "INTEGER" (Value.vstr "bad")]
      [[("id", Value.vstr "1"), ("age", Value.vstr "25")],
       [("id", Value.vstr "1"), ("age", Value.vstr "bad")],
       [("id", Value.vstr "2"), ("age", Value.vstr "30")]]
      "t.csv" ["VARCHAR", "INTEGER"]).length = 3 := by
  rw [C1_generatePartialRepairs_amended.1
    [pkDupViol "id" 1, mkTypeViol 1 "age" "INTEGER" (Value.vstr "bad")]
    [[("id", Value.vstr "1"), ("age", Value.vstr "25")],
     [("id", Value.vstr "1"), ("age", Value.vstr "bad")],
     [("id", Value.vstr "2"), ("age", Value.vstr "30")]]
    "t.csv" ["VARCHAR", "INTEGER"] (by decide)]
  rw [if_pos (Or.inl (by decide))]

/-- A general (non-partial) repair candidate file object. -/
structure RepairFile where
  name : String
  rows : List Row
  columns : List String
  description : String
deriving DecidableEq, Repr

/-- The identity check between the keep-first and keep-last row sequences
(`areRepairsIdentical` in `generateGeneralRepairs`): same length, and each
row pair agrees on every key of the first row. -/
def rowsIdentical (rs1 rs2 : List Row) : Bool :=
  rs1.length == rs2.length &&
  (rs1.zip rs2).all (fun p => (objKeys p.1).all (fun c => getVal p.1 c == getVal p.2 c))

/-- The null-violated violations of a violation list (message contains
"Null/empty value"). -/
def nullViolationsOf (violations : List Violation) : List Violation :=
  violations.filter (fun v => jsIncludes v.msg "Null/empty value")

/-- The duplicate-value violations of a violation list (message contains
"Duplicate value"). -/
def dupViolationsOf (violations : List Violation) : List Violation :=
  violations.filter (fun v => jsIncludes v.msg "Duplicate value")

/-- The 0-based indices of rows carrying a null violation. -/
def nullIdxOf (violations : List Violation) : List Int :=
  (nullViolationsOf violations).map (fun v => v.row - 1)

/-- The set of columns carrying duplicate violations. -/
def dupColsOf (violations : List Violation) : List String :=
  jsSetOfList ((dupViolationsOf violations).map (fun v => v.col))

/-- The keep-first repair row sequence of `generateGeneralRepairs`. -/
def generalKeepFirst (violations : List Violation) (tableData : List Row) : List Row :=
  keepFirstRows [] (nullIdxOf violations) (dupColsOf violations) tableData 0 []

/-- The keep-last repair row sequence of `generateGeneralRepairs`. -/
def generalKeepLast (violations : List Violation) (tableData : List Row) : List Row :=
  keepLastRows [] (nullIdxOf violations) (dupColsOf violations)
    (lastIndicesMap (nullIdxOf violations) (dupColsOf violations) tableData 0 [])
    tableData 0

/-- The filter of the null-removal-only branch:
`tableData.filter((row, idx) => !nullRowIndices.has(idx))`. -/
def removeNullRows (nullIdx : List Int) : List Row → Nat → List Row
  | [], _ => []
  | row :: rest, idx =>
    if nullIdx.contains (idx : Int) then removeNullRows nullIdx rest (idx + 1)
    else row :: removeNullRows nullIdx rest (idx + 1)

/-- The function `generateGeneralRepairs(violations, tableData,
selectedFile)` of `repairGenerator.js` lines 304-422. -/
def generateGeneralRepairs (violations : List Violation) (tableData : List Row)
    (selectedFile : String) : List RepairFile :=
  if violations.isEmpty then []
  else
    let nullViolations := nullViolationsOf violations
    let duplicateViolations := dupViolationsOf violations
    if duplicateViolations.length > 0 ∨ nullViolations.length > 0 then
      if duplicateViolations.length = 0 ∧ nullViolations.length > 0 then
        let repairRows := removeNullRows (nullIdxOf violations) tableData 0
        [{ name := fileOr selectedFile ++ "_repair_1_" ++ toString dateNow ++ ".csv",
           rows := repairRows, columns := tableColumns tableData,
           description := "Repair 1: Remove empty rows (" ++
             toString repairRows.length ++ " rows)" }]
      else
        let repairRows1 := generalKeepFirst violations tableData
        let repairRows2 := generalKeepLast violations tableData
        let areRepairsIdentical := rowsIdentical repairRows1 repairRows2
        [{ name := fileOr selectedFile ++ "_repair_1_" ++ toString dateNow ++ ".csv",
           rows := repairRows1, columns := tableColumns tableData,
           description := "Repair 1: Keep first duplicate and remove empty rows (" ++
             toString repairRows1.length ++ " rows)" }] ++
        (if areRepairsIdentical then []
         else
          [{ name := fileOr selectedFile ++ "_repair_2_" ++ toString dateNow ++ ".csv",
             rows := repairRows2, columns := tableColumns tableData,
             description := "Repair 2: Keep last duplicate and remove empty rows (" ++
               toString repairRows2.length ++ " rows)" }])
    else []

/-- C5: `generateGeneralRepairs` returns exactly one candidate (null
removal only) when null/empty violations exist but no duplicate-value
violations; the keep-first candidate followed by the keep-last candidate
when duplicate violations exist, except that the keep-last candidate is
suppressed exactly when its row sequence is row-for-row identical to the
keep-first one; and no candidates when the violation list has neither
null/empty nor duplicate-value violations. -/
theorem C5_generateGeneralRepairs_structure (violations : List Violation)
    (tableData : List Row) (file : String) :
    ((dupViolationsOf violations = [] ∧ nullViolationsOf violations ≠ []) →
      (generateGeneralRepairs violations tableData file).map (fun f => f.rows) =
        [removeNullRows (nullIdxOf violations) tableData 0]) ∧
    (dupViolationsOf violations ≠ [] →
      (generateGeneralRepairs violations tableData file).map (fun f => f.rows) =
        [generalKeepFirst violations tableData] ++
        (if rowsIdentical (generalKeepFirst violations tableData)
            (generalKeepLast violations tableData) = true then []
         else [generalKeepLast violations tableData])) ∧
    ((dupViolationsOf violations = [] ∧ nullViolationsOf violations = []) →
      generateGeneralRepairs violations tableData file = []) := by
  refine ⟨?_, ?_, ?_⟩
  · rintro ⟨hdup, hnull⟩
    have hvne : violations.isEmpty = false := by
      cases hV : violations with
      | nil => rw [hV] at hnull; exact absurd rfl hnull
      | cons v rest => rfl
    unfold generateGeneralRepairs
    rw [if_neg (by rw [hvne]; exact Bool.false_ne_true)]
    rw [if_pos (Or.inr (List.length_pos.mpr hnull))]
    rw [if_pos ⟨by rw [hdup]; rfl, List.length_pos.mpr hnull⟩]
    rfl
  · intro hdup
    have hvne : violations.isEmpty = false := by
      cases hV : violations with
      | nil => rw [hV] at hdup; exact absurd rfl hdup
      | cons v rest => rfl
    unfold generateGeneralRepairs
    rw [if_neg (by rw [hvne]; exact Bool.false_ne_true)]
    rw [if_pos (Or.inl (List.length_pos.mpr hdup))]
    rw [if_neg (by
      rintro ⟨h0, _⟩
      rw [List.length_eq_zero] at h0
      exact hdup h0)]
    by_cases hid : rowsIdentical (generalKeepFirst violations tableData)
        (generalKeepLast violations tableData) = true
    · simp [hid]
    · simp [hid]
  · rintro ⟨hdup, hnull⟩
    unfold generateGeneralRepairs
    by_cases hV : violations.isEmpty = true
    · rw [if_pos hV]
    · rw [if_neg hV]
      rw [if_neg (by
        rintro (h | h)
        · rw [hdup] at h; simp at h
        · rw [hnull] at h; simp at h)]

/-- Witness for C5: a list with one duplicate violation yields the
keep-first candidate and the suppression check on the concrete table. -/
theorem C5_generateGeneralRepairs_structure_witness :
    (generateGeneralRepairs [uniqueDupViol "id" 1]
      [[("id", Value.vstr "1")], [("id", Value.vstr "1")], [("id", Value.vstr "2")]]
      "t.csv").map (fun f => f.rows) =
      [generalKeepFirst [uniqueDupViol "id" 1]
        [[("id", Value.vstr "1")], [("id", Value.vstr "1")], [("id", Value.vstr "2")]]] ++
      (if rowsIdentical
          (generalKeepFirst [uniqueDupViol "id" 1]
            [[("id", Value.vstr "1")], [("id", Value.vstr "1")], [("id", Value.vstr "2")]])
          (generalKeepLast [uniqueDupViol "id" 1]
            [[("id", Value.vstr "1")], [("id", Value.vstr "1")], [("id", Value.vstr "2")]])
          = true then []
       else [generalKeepLast [uniqueDupViol "id" 1]
            [[("id", Value.vstr "1")], [("id", Value.vstr "1")], [("id", Value.vstr "2")]]]) :=
  (C5_generateGeneralRepairs_structure [uniqueDupViol "id" 1]
    [[("id", Value.vstr "1")], [("id", Value.vstr "1")], [("id", Value.vstr "2")]]
    "t.csv").2.1 (by decide)

theorem mem_jsSetOfList_aux (l : List String) (acc : List String) (x : String) :
    x ∈ l.foldl (fun a y => if a.contains y then a else a ++ [y]) acc ↔
      x ∈ acc ∨ x ∈ l := by
  induction l generalizing acc with
  | nil => simp
  | cons y ys ih =>
    rw [List.foldl_cons]
    by_cases hc : acc.contains y = true
    · rw [if_pos hc, ih]
      constructor
      · rintro (h | h)
        · exact Or.inl h
        · exact Or.inr (List.mem_cons_of_mem _ h)
      · rintro (h | h)
        · exact Or.inl h
        · rcases List.mem_cons.mp h with rfl | h
          · exact Or.inl (by simpa using hc)
          · exact Or.inr h
    · rw [if_neg hc, ih]
      constructor
      · rintro (h | h)
        · rcases List.mem_append.mp h with h | h
          · exact Or.inl h
          · exact Or.inr (List.mem_cons.mpr (Or.inl (by simpa using h)))
        · exact Or.inr (List.mem_cons_of_mem _ h)
      · rintro (h | h)
        · exact Or.inl (List.mem_append.mpr (Or.inl h))
        · rcases List.mem_cons.mp h with rfl | h
          · exact Or.inl (List.mem_append.mpr (Or.inr (by simp)))
          · exact Or.inr h

theorem mem_jsSetOfList (l : List String) (x : String) :
    x ∈ jsSetOfList l ↔ x ∈ l := by
  unfold jsSetOfList
  rw [mem_jsSetOfList_aux]
  simp

theorem validateDataType_varchar (v : Value) : validateDataType v "VARCHAR" = true := by
  by_cases h : isEmptyVal v = true
  · exact validateDataType_of_empty v _ h
  · rw [Bool.not_eq_true] at h
    by_cases htr : jsTrim (valueToString v) = ""
    · unfold validateDataType
      rw [isEmptyVal_eq_guard, h]
      simp [htr]
    · rw [validateDataType_of_nonempty v _ h htr]
      rw [if_neg (by decide), if_neg (by decide), if_neg (by decide), if_neg (by decide)]

theorem guard_false_of_token (C : List (List String)) (idx : Nat) (s : String)
    (h : (C.getD idx []).contains s = true) (T : List Row) (hT : 0 < T.length) :
    (T.isEmpty || C.isEmpty) = false := by
  have hC : C ≠ [] := by
    intro hc
    rw [hc] at h
    simp [List.getD] at h
  cases T with
  | nil => simp at hT
  | cons r rest => simp [hC]

theorem mem_nullIdxOf_of_empty_cell (T : List Row) (C : List (List String))
    (ft : List (String × FileTable)) (cfg : Option FKConfig) (ty : List String)
    (idx : Nat) (col : String) (hcol : (tableColumns T).get? idx = some col)
    (hc : (C.getD idx []).contains "primary" = true ∨
          (C.getD idx []).contains "notnull" = true)
    (k : Nat) (hk : k < T.length)
    (he : isEmptyVal (getVal (rowAt T k) col) = true) :
    (k : Int) ∈ nullIdxOf (checkViolations T C ft cfg ty) := by
  have hguard : (T.isEmpty || C.isEmpty) = false := by
    rcases hc with h | h
    · exact guard_false_of_token C idx "primary" h T (Nat.lt_of_le_of_lt (Nat.zero_le k) hk)
    · exact guard_false_of_token C idx "notnull" h T (Nat.lt_of_le_of_lt (Nat.zero_le k) hk)
  have hv : ∃ v ∈ checkViolations T C ft cfg ty,
      v.msg = "Null/empty value" ∧ v.row = (k : Int) + 1 := by
    rcases hc with hp | hn
    · refine ⟨pkNullViol col k, ?_, rfl, rfl⟩
      exact (mem_checkViolations_iff T C ft cfg ty _).mpr ⟨hguard, Or.inl
        ⟨idx, col, hcol, (mem_columnChecks_iff _ _ _ _ _).mpr (Or.inr (Or.inl
          ⟨hp, (mem_pkScan_iff _ _ _ _ _).mpr
            ⟨k, hk, Or.inl ⟨he, by rw [Nat.zero_add]⟩⟩⟩))⟩⟩
    · refine ⟨notNullViol col k, ?_, rfl, rfl⟩
      exact (mem_checkViolations_iff T C ft cfg ty _).mpr ⟨hguard, Or.inl
        ⟨idx, col, hcol, (mem_columnChecks_iff _ _ _ _ _).mpr (Or.inr (Or.inr (Or.inr
          ⟨hn, (mem_notNullScan_iff _ _ _).mpr ⟨k, hk, he, rfl⟩⟩)))⟩⟩
  rcases hv with ⟨v, hvmem, hmsg, hrow⟩
  unfold nullIdxOf nullViolationsOf
  refine List.mem_map.mpr ⟨v, List.mem_filter.mpr ⟨hvmem, by rw [hmsg]; decide⟩, ?_⟩
  rw [hrow]
  ring

theorem mem_dupColsOf_of_dup_pair (T : List Row) (C : List (List String))
    (ft : List (String × FileTable)) (cfg : Option FKConfig) (ty : List String)
    (idx : Nat) (col : String) (hcol : (tableColumns T).get? idx = some col)
    (hc : (C.getD idx []).contains "primary" = true ∨
          (C.getD idx []).contains "unique" = true)
    (k1 k2 : Nat) (h12 : k1 < k2) (hk2 : k2 < T.length)
    (hne : isEmptyVal (getVal (rowAt T k2) col) = false)
    (heq : getVal (rowAt T k1) col = getVal (rowAt T k2) col) :
    col ∈ dupColsOf (checkViolations T C ft cfg ty) := by
  have hv : ∃ v ∈ checkViolations T C ft cfg ty,
      v.msg = "Duplicate value" ∧ v.col = col := by
    rcases hc with hp | hu
    · refine ⟨pkDupViol col k2, ?_, rfl, rfl⟩
      exact (mem_checkViolations_iff T C ft cfg ty _).mpr
        ⟨guard_false_of_token C idx "primary" hp T (Nat.lt_of_le_of_lt (Nat.zero_le k2) hk2),
         Or.inl ⟨idx, col, hcol, (mem_columnChecks_iff _ _ _ _ _).mpr (Or.inr (Or.inl
          ⟨hp, (mem_pkScan_iff _ _ _ _ _).mpr
            ⟨k2, hk2, Or.inr ⟨hne, Or.inr ⟨k1, h12, heq⟩, by rw [Nat.zero_add]⟩⟩⟩))⟩⟩
    · refine ⟨uniqueDupViol col k2, ?_, rfl, rfl⟩
      exact (mem_checkViolations_iff T C ft cfg ty _).mpr
        ⟨guard_false_of_token C idx "unique" hu T (Nat.lt_of_le_of_lt (Nat.zero_le k2) hk2),
         Or.inl ⟨idx, col, hcol, (mem_columnChecks_iff _ _ _ _ _).mpr (Or.inr (Or.inr (Or.inl
          ⟨hu, (mem_uniqueScan_iff _ _ _ _ _).mpr
            ⟨k2, hk2, hne, Or.inr ⟨k1, h12, heq⟩, by rw [Nat.zero_add]⟩⟩)))⟩⟩
  rcases hv with ⟨v, hvmem, hmsg, hcoleq⟩
  unfold dupColsOf
  rw [mem_jsSetOfList]
  refine List.mem_map.mpr ⟨v, ?_, hcoleq⟩
  unfold dupViolationsOf
  exact List.mem_filter.mpr ⟨hvmem, by rw [hmsg]; decide⟩

theorem keepFirstRows_cons (typeIdx nullIdx : List Int) (dupCols : List String)
    (r : Row) (rest : List Row) (idx : Nat) (seen : List String) :
    keepFirstRows typeIdx nullIdx dupCols (r :: rest) idx seen =
      if typeIdx.contains (idx : Int) then
        r :: keepFirstRows typeIdx nullIdx dupCols rest (idx + 1) seen
      else if nullIdx.contains (idx : Int) then
        keepFirstRows typeIdx nullIdx dupCols rest (idx + 1) seen
      else if (dupRowCheck dupCols r seen).1 then
        r :: keepFirstRows typeIdx nullIdx dupCols rest (idx + 1) (dupRowCheck dupCols r seen).2
      else keepFirstRows typeIdx nullIdx dupCols rest (idx + 1) (dupRowCheck dupCols r seen).2 := by
  rcases hdc : dupRowCheck dupCols r seen with ⟨b, seen'⟩
  cases b <;> simp [keepFirstRows, hdc]

theorem removeNullRows_sublist (nullIdx : List Int) :
    ∀ (rows : List Row) (i0 : Nat), List.Sublist (removeNullRows nullIdx rows i0) rows := by
  intro rows
  induction rows with
  | nil => intro i0; exact List.Sublist.refl _
  | cons r rest ih =>
    intro i0
    unfold removeNullRows
    by_cases hn : nullIdx.contains (i0 : Int) = true
    · rw [if_pos hn]
      exact (ih (i0 + 1)).cons r
    · rw [if_neg hn]
      exact (ih (i0 + 1)).cons₂ r

theorem keepFirstRows_sublist (nullIdx : List Int) (dupCols : List String) :
    ∀ (rows : List Row) (i0 : Nat) (seen : List String),
      List.Sublist (keepFirstRows [] nullIdx dupCols rows i0 seen) rows := by
  intro rows
  induction rows with
  | nil => intro i0 seen; exact List.Sublist.refl _
  | cons r rest ih =>
    intro i0 seen
    rw [keepFirstRows_cons]
    rw [if_neg (by simp)]
    by_cases hn : nullIdx.contains (i0 : Int) = true
    · rw [if_pos hn]
      exact (ih (i0 + 1) seen).cons r
    · rw [if_neg hn]
      by_cases hk : (dupRowCheck dupCols r seen).1 = true
      · rw [if_pos hk]
        exact (ih (i0 + 1) _).cons₂ r
      · rw [if_neg hk]
        exact (ih (i0 + 1) _).cons r

theorem keepLastRows_sublist (nullIdx : List Int) (dupCols : List String)
    (lastIdx : List (String × Nat)) :
    ∀ (rows : List Row) (i0 : Nat),
      List.Sublist (keepLastRows [] nullIdx dupCols lastIdx rows i0) rows := by
  intro rows
  induction rows with
  | nil => intro i0; exact List.Sublist.refl _
  | cons r rest ih =>
    intro i0
    unfold keepLastRows
    rw [if_neg (by simp)]
    by_cases hn : nullIdx.contains (i0 : Int) = true
    · rw [if_pos hn]
      exact (ih (i0 + 1)).cons r
    · rw [if_neg hn]
      by_cases hk : (dupCols.all
          (fun c => lastIdx.lookup (dupKey c (getVal r c)) == some i0)) = true
      · rw [if_pos hk]
        exact (ih (i0 + 1)).cons₂ r
      · rw [if_neg hk]
        exact (ih (i0 + 1)).cons r

theorem mem_removeNullRows (nullIdx : List Int) :
    ∀ (rows : List Row) (i0 : Nat) (r : Row),
      r ∈ removeNullRows nullIdx rows i0 →
      ∃ k, k < rows.length ∧ r = rowAt rows k ∧ ((i0 + k : Nat) : Int) ∉ nullIdx := by
  intro rows
  induction rows with
  | nil => intro i0 r hr; cases hr
  | cons r' rest ih =>
    intro i0 r hr
    unfold removeNullRows at hr
    by_cases hn : nullIdx.contains (i0 : Int) = true
    · rw [if_pos hn] at hr
      rcases ih (i0 + 1) r hr with ⟨k, hk, hrk, hnk⟩
      exact ⟨k + 1, by simpa using hk, hrk, by
        intro hmem
        apply hnk
        have : ((i0 + (k + 1) : Nat) : Int) = ((i0 + 1 + k : Nat) : Int) := by
          push_cast; ring
        rwa [this] at hmem⟩
    · rw [if_neg hn] at hr
      rcases List.mem_cons.mp hr with rfl | hr
      · refine ⟨0, by simp, rfl, ?_⟩
        intro hmem
        apply hn
        exact List.contains_iff_exists_mem_beq.mpr ⟨_, by simpa using hmem, by simp⟩
      · rcases ih (i0 + 1) r hr with ⟨k, hk, hrk, hnk⟩
        exact ⟨k + 1, by simpa using hk, hrk, by
          intro hmem
          apply hnk
          have : ((i0 + (k + 1) : Nat) : Int) = ((i0 + 1 + k : Nat) : Int) := by
            push_cast; ring
          rwa [this] at hmem⟩

theorem dupRowCheck_seen_sub (r : Row) :
    ∀ (dupCols : List String) (seen : List String) (x : String),
      x ∈ seen → x ∈ (dupRowCheck dupCols r seen).2 := by
  intro dupCols
  induction dupCols with
  | nil => intro seen x hx; exact hx
  | cons c cs ih =>
    intro seen x hx
    unfold dupRowCheck
    by_cases hc : seen.contains (dupKey c (getVal r c)) = true
    · rw [if_pos hc]
      exact hx
    · rw [if_neg hc]
      exact ih _ x (List.mem_cons_of_mem _ hx)

theorem dupRowCheck_keys_mem (r : Row) :
    ∀ (dupCols : List String) (seen : List String),
      (dupRowCheck dupCols r seen).1 = true →
      ∀ c ∈ dupCols, dupKey c (getVal r c) ∈ (dupRowCheck dupCols r seen).2 := by
  intro dupCols
  induction dupCols with
  | nil => intro seen _ c hc; cases hc
  | cons c' cs ih =>
    intro seen hkeep c hc
    unfold dupRowCheck at hkeep ⊢
    by_cases hcon : seen.contains (dupKey c' (getVal r c')) = true
    · rw [if_pos hcon] at hkeep
      cases hkeep
    · rw [if_neg hcon] at hkeep ⊢
      rcases List.mem_cons.mp hc with rfl | hc
      · exact dupRowCheck_seen_sub r cs _ _ (List.mem_cons_self _ _)
      · exact ih _ hkeep c hc

theorem dupRowCheck_keys_not_seen (r : Row) :
    ∀ (dupCols : List String) (seen : List String),
      (dupRowCheck dupCols r seen).1 = true →
      ∀ c ∈ dupCols, dupKey c (getVal r c) ∉ seen := by
  intro dupCols
  induction dupCols with
  | nil => intro seen _ c hc; cases hc
  | cons c' cs ih =>
    intro seen hkeep c hc
    unfold dupRowCheck at hkeep
    by_cases hcon : seen.contains (dupKey c' (getVal r c')) = true
    · rw [if_pos hcon] at hkeep
      cases hkeep
    · rw [if_neg hcon] at hkeep
      rcases List.mem_cons.mp hc with rfl | hc
      · intro hmem
        exact hcon (List.contains_iff_exists_mem_beq.mpr ⟨_, hmem, by simp⟩)
      · intro hmem
        exact ih _ hkeep c hc (List.mem_cons_of_mem _ hmem)

theorem mem_keepFirstRows (nullIdx : List Int) (dupCols : List String) :
    ∀ (rows : List Row) (i0 : Nat) (seen : List String) (r : Row),
      r ∈ keepFirstRows [] nullIdx dupCols rows i0 seen →
      ∃ k, k < rows.length ∧ r = rowAt rows k ∧ ((i0 + k : Nat) : Int) ∉ nullIdx := by
  intro rows
  induction rows with
  | nil => intro i0 seen r hr; cases hr
  | cons r' rest ih =>
    intro i0 seen r hr
    rw [keepFirstRows_cons, if_neg (by simp)] at hr
    by_cases hn : nullIdx.contains (i0 : Int) = true
    · rw [if_pos hn] at hr
      rcases ih (i0 + 1) seen r hr with ⟨k, hk, hrk, hnk⟩
      refine ⟨k + 1, by simpa using hk, hrk, ?_⟩
      intro hmem
      apply hnk
      have hcast : ((i0 + (k + 1) : Nat) : Int) = ((i0 + 1 + k : Nat) : Int) := by
        push_cast; ring
      rwa [hcast] at hmem
    · rw [if_neg hn] at hr
      have hnot : ((i0 + 0 : Nat) : Int) ∉ nullIdx := by
        intro hmem
        apply hn
        exact List.contains_iff_exists_mem_beq.mpr ⟨_, by simpa using hmem, by simp⟩
      by_cases hk1 : (dupRowCheck dupCols r' seen).1 = true
      · rw [if_pos hk1] at hr
        rcases List.mem_cons.mp hr with rfl | hr
        · exact ⟨0, by simp, rfl, hnot⟩
        · rcases ih (i0 + 1) _ r hr with ⟨k, hk, hrk, hnk⟩
          refine ⟨k + 1, by simpa using hk, hrk, ?_⟩
          intro hmem
          apply hnk
          have hcast : ((i0 + (k + 1) : Nat) : Int) = ((i0 + 1 + k : Nat) : Int) := by
            push_cast; ring
          rwa [hcast] at hmem
      · rw [if_neg hk1] at hr
        rcases ih (i0 + 1) _ r hr with ⟨k, hk, hrk, hnk⟩
        refine ⟨k + 1, by simpa using hk, hrk, ?_⟩
        intro hmem
        apply hnk
        have hcast : ((i0 + (k + 1) : Nat) : Int) = ((i0 + 1 + k : Nat) : Int) := by
          push_cast; ring
        rwa [hcast] at hmem

theorem keepFirstRows_keys_not_seen (nullIdx : List Int) (dupCols : List String) :
    ∀ (rows : List Row) (i0 : Nat) (seen : List String) (r : Row),
      r ∈ keepFirstRows [] nullIdx dupCols rows i0 seen →
      ∀ c ∈ dupCols, dupKey c (getVal r c) ∉ seen := by
  intro rows
  induction rows with
  | nil => intro i0 seen r hr; cases hr
  | cons r' rest ih =>
    intro i0 seen r hr c hc
    rw [keepFirstRows_cons, if_neg (by simp)] at hr
    by_cases hn : nullIdx.contains (i0 : Int) = true
    · rw [if_pos hn] at hr
      exact ih (i0 + 1) seen r hr c hc
    · rw [if_neg hn] at hr
      by_cases hk1 : (dupRowCheck dupCols r' seen).1 = true
      · rw [if_pos hk1] at hr
        rcases List.mem_cons.mp hr with rfl | hr
        · exact dupRowCheck_keys_not_seen r dupCols seen hk1 c hc
        · intro hmem
          exact ih (i0 + 1) _ r hr c hc (dupRowCheck_seen_sub r' dupCols seen _ hmem)
      · rw [if_neg hk1] at hr
        intro hmem
        exact ih (i0 + 1) _ r hr c hc (dupRowCheck_seen_sub r' dupCols seen _ hmem)

theorem keepFirstRows_pairwise (nullIdx : List Int) (dupCols : List String) :
    ∀ (rows : List Row) (i0 : Nat) (seen : List String),
      List.Pairwise
        (fun r1 r2 => ∀ c ∈ dupCols, dupKey c (getVal r1 c) ≠ dupKey c (getVal r2 c))
        (keepFirstRows [] nullIdx dupCols rows i0 seen) := by
  intro rows
  induction rows with
  | nil => intro i0 seen; exact List.Pairwise.nil
  | cons r' rest ih =>
    intro i0 seen
    rw [keepFirstRows_cons, if_neg (by simp)]
    by_cases hn : nullIdx.contains (i0 : Int) = true
    · rw [if_pos hn]
      exact ih (i0 + 1) seen
    · rw [if_neg hn]
      by_cases hk1 : (dupRowCheck dupCols r' seen).1 = true
      · rw [if_pos hk1]
        refine List.Pairwise.cons ?_ (ih (i0 + 1) _)
        intro r2 hr2 c hc heq
        have h1 : dupKey c (getVal r' c) ∈ (dupRowCheck dupCols r' seen).2 :=
          dupRowCheck_keys_mem r' dupCols seen hk1 c hc
        have h2 : dupKey c (getVal r2 c) ∉ (dupRowCheck dupCols r' seen).2 :=
          keepFirstRows_keys_not_seen nullIdx dupCols rest (i0 + 1) _ r2 hr2 c hc
        rw [heq] at h1
        exact h2 h1
      · rw [if_neg hk1]
        exact ih (i0 + 1) _

theorem mem_keepLastRows (nullIdx : List Int) (dupCols : List String)
    (lastIdx : List (String × Nat)) :
    ∀ (rows : List Row) (i0 : Nat) (r : Row),
      r ∈ keepLastRows [] nullIdx dupCols lastIdx rows i0 →
      ∃ k, k < rows.length ∧ r = rowAt rows k ∧ ((i0 + k : Nat) : Int) ∉ nullIdx ∧
        (dupCols.all
          (fun c => lastIdx.lookup (dupKey c (getVal r c)) == some (i0 + k))) = true := by
  intro rows
  induction rows with
  | nil => intro i0 r hr; cases hr
  | cons r' rest ih =>
    intro i0 r hr
    unfold keepLastRows at hr
    rw [if_neg (by simp)] at hr
    by_cases hn : nullIdx.contains (i0 : Int) = true
    · rw [if_pos hn] at hr
      rcases ih (i0 + 1) r hr with ⟨k, hk, hrk, hnk, hall⟩
      refine ⟨k + 1, by simpa using hk, hrk, ?_, ?_⟩
      · intro hmem
        apply hnk
        have hcast : ((i0 + (k + 1) : Nat) : Int) = ((i0 + 1 + k : Nat) : Int) := by
          push_cast; ring
        rwa [hcast] at hmem
      · have hcast : i0 + (k + 1) = i0 + 1 + k := by omega
        rwa [hcast]
    · rw [if_neg hn] at hr
      by_cases hall : (dupCols.all
          (fun c => lastIdx.lookup (dupKey c (getVal r' c)) == some i0)) = true
      · rw [if_pos hall] at hr
        rcases List.mem_cons.mp hr with rfl | hr
        · refine ⟨0, by simp, rfl, ?_, by simpa using hall⟩
          intro hmem
          apply hn
          exact List.contains_iff_exists_mem_beq.mpr ⟨_, by simpa using hmem, by simp⟩
        · rcases ih (i0 + 1) r hr with ⟨k, hk, hrk, hnk, hall'⟩
          refine ⟨k + 1, by simpa using hk, hrk, ?_, ?_⟩
          · intro hmem
            apply hnk
            have hcast : ((i0 + (k + 1) : Nat) : Int) = ((i0 + 1 + k : Nat) : Int) := by
              push_cast; ring
            rwa [hcast] at hmem
          · have hcast : i0 + (k + 1) = i0 + 1 + k := by omega
            rwa [hcast]
      · rw [if_neg hall] at hr
        rcases ih (i0 + 1) r hr with ⟨k, hk, hrk, hnk, hall'⟩
        refine ⟨k + 1, by simpa using hk, hrk, ?_, ?_⟩
        · intro hmem
          apply hnk
          have hcast : ((i0 + (k + 1) : Nat) : Int) = ((i0 + 1 + k : Nat) : Int) := by
            push_cast; ring
          rwa [hcast] at hmem
        · have hcast : i0 + (k + 1) = i0 + 1 + k := by omega
          rwa [hcast]

theorem keepLastRows_pairwise (nullIdx : List Int) (dupCols : List String)
    (lastIdx : List (String × Nat)) :
    ∀ (rows : List Row) (i0 : Nat),
      List.Pairwise
        (fun r1 r2 => ∀ c ∈ dupCols, dupKey c (getVal r1 c) ≠ dupKey c (getVal r2 c))
        (keepLastRows [] nullIdx dupCols lastIdx rows i0) := by
  intro rows
  induction rows with
  | nil => intro i0; exact List.Pairwise.nil
  | cons r' rest ih =>
    intro i0
    unfold keepLastRows
    rw [if_neg (by simp)]
    by_cases hn : nullIdx.contains (i0 : Int) = true
    · rw [if_pos hn]
      exact ih (i0 + 1)
    · rw [if_neg hn]
      by_cases hall : (dupCols.all
          (fun c => lastIdx.lookup (dupKey c (getVal r' c)) == some i0)) = true
      · rw [if_pos hall]
        refine List.Pairwise.cons ?_ (ih (i0 + 1))
        intro r2 hr2 c hc heq
        rcases mem_keepLastRows nullIdx dupCols lastIdx rest (i0 + 1) r2 hr2 with
          ⟨k, _, _, _, hall'⟩
        have h1 : (lastIdx.lookup (dupKey c (getVal r' c)) == some i0) = true :=
          List.all_eq_true.mp hall c hc
        have h2 : (lastIdx.lookup (dupKey c (getVal r2 c)) == some (i0 + 1 + k)) = true :=
          List.all_eq_true.mp hall' c hc
        rw [heq] at h1
        rw [beq_iff_eq] at h1 h2
        rw [h1] at h2
        have : i0 = i0 + 1 + k := Option.some_inj.mp h2
        omega
      · rw [if_neg hall]
        exact ih (i0 + 1)

theorem pairwise_trivial {α : Type} (l : List α) (Rel : α → α → Prop)
    (h : ∀ a b, Rel a b) : List.Pairwise Rel l := by
  induction l with
  | nil => exact List.Pairwise.nil
  | cons a rest ih => exact List.Pairwise.cons (fun b _ => h a b) ih

theorem checkViolations_nil_of_clean (R : List Row) (C : List (List String))
    (h : ∀ idx col, (tableColumns R).get? idx = some col →
       (((C.getD idx []).contains "primary" = true ∨
         (C.getD idx []).contains "notnull" = true) →
          ∀ k, k < R.length → isEmptyVal (getVal (rowAt R k) col) = false) ∧
       (((C.getD idx []).contains "primary" = true ∨
         (C.getD idx []).contains "unique" = true) →
          ∀ k1 k2, k1 < k2 → k2 < R.length →
            isEmptyVal (getVal (rowAt R k2) col) = false →
            getVal (rowAt R k1) col ≠ getVal (rowAt R k2) col)) :
    checkViolations R C [] none [] = [] := by
  rw [List.eq_nil_iff_forall_not_mem]
  intro v hv
  rcases (mem_checkViolations_iff R C [] none [] v).mp hv with ⟨_, hin | hfk⟩
  · rcases hin with ⟨idx, col, hcol, hcc⟩
    have hIC := h idx col hcol
    rcases (mem_columnChecks_iff _ _ _ _ _).mp hcc with
      hts | ⟨hp, hpm⟩ | ⟨hu, hum⟩ | ⟨hn, hnm⟩
    · rcases (mem_typeScan_iff _ _ _ _).mp hts with ⟨k, hk, hbad, _⟩
      rw [show typeAt [] idx = "VARCHAR" from rfl] at hbad
      rw [validateDataType_varchar] at hbad
      cases hbad
    · rcases (mem_pkScan_iff _ _ _ _ _).mp hpm with
        ⟨k, hk, ⟨hke, _⟩ | ⟨hke, hseen, _⟩⟩
      · rw [hIC.1 (Or.inl hp) k hk] at hke
        cases hke
      · rcases hseen with hs | ⟨j, hj, hjeq⟩
        · simp at hs
        · exact hIC.2 (Or.inl hp) j k hj hk hke hjeq
    · rcases (mem_uniqueScan_iff _ _ _ _ _).mp hum with ⟨k, hk, hke, hseen, _⟩
      rcases hseen with hs | ⟨j, hj, hjeq⟩
      · simp at hs
      · exact hIC.2 (Or.inr hu) j k hj hk hke hjeq
    · rcases (mem_notNullScan_iff _ _ _).mp hnm with ⟨k, hk, hke, _⟩
      rw [hIC.1 (Or.inr hn) k hk] at hke
      cases hke
  · exact absurd hfk (List.not_mem_nil v)

theorem mem_generalRepairs_rows (V : List Violation) (T : List Row) (file : String)
    (cand : RepairFile) (h : cand ∈ generateGeneralRepairs V T file) :
    (cand.rows = removeNullRows (nullIdxOf V) T 0 ∧ dupViolationsOf V = []) ∨
    cand.rows = generalKeepFirst V T ∨ cand.rows = generalKeepLast V T := by
  unfold generateGeneralRepairs at h
  by_cases hV : V.isEmpty = true
  · rw [if_pos hV] at h
    cases h
  · rw [if_neg hV] at h
    by_cases h1 : (dupViolationsOf V).length > 0 ∨ (nullViolationsOf V).length > 0
    · rw [if_pos h1] at h
      by_cases h2 : (dupViolationsOf V).length = 0 ∧ (nullViolationsOf V).length > 0
      · rw [if_pos h2] at h
        rcases List.mem_singleton.mp h with rfl
        exact Or.inl ⟨rfl, List.length_eq_zero.mp h2.1⟩
      · rw [if_neg h2] at h
        rcases List.mem_append.mp h with hm | hm
        · rcases List.mem_singleton.mp hm with rfl
          exact Or.inr (Or.inl rfl)
        · by_cases hid : rowsIdentical (generalKeepFirst V T) (generalKeepLast V T) = true
          · simp only [hid, if_true] at hm
            cases hm
          · simp only [hid, Bool.false_eq_true, if_false] at hm
            rcases List.mem_singleton.mp hm with rfl
            exact Or.inr (Or.inr rfl)
    · rw [if_neg h1] at h
      cases h

theorem recheck_clean_aux (T : List Row) (C : List (List String))
    (ft : List (String × FileTable)) (cfg : Option FKConfig) (ty : List String)
    (cols : List String) (hcols : ∀ r ∈ T, objKeys r = cols) (R : List Row)
    (hsub : List.Sublist R T)
    (hmem : ∀ r ∈ R, ∃ k, k < T.length ∧ r = rowAt T k ∧
      (k : Int) ∉ nullIdxOf (checkViolations T C ft cfg ty))
    (hpair : List.Pairwise
      (fun r1 r2 => ∀ c ∈ dupColsOf (checkViolations T C ft cfg ty),
        dupKey c (getVal r1 c) ≠ dupKey c (getVal r2 c)) R) :
    checkViolations R C [] none [] = [] := by
  by_cases hRnil : R = []
  · rw [hRnil]
    rfl
  · have hRcols : tableColumns R = cols := by
      cases hRE : R with
      | nil => exact absurd hRE hRnil
      | cons r0 rest0 =>
        show objKeys r0 = cols
        have hr0 : r0 ∈ R := by rw [hRE]; exact List.mem_cons_self _ _
        rcases hmem r0 hr0 with ⟨k, hk, hrk, _⟩
        rw [hrk, rowAt_eq_get T k hk]
        exact hcols _ (List.get_mem T k hk)
    have hTcols : tableColumns T = cols := by
      cases hTE : T with
      | nil =>
        rw [hTE] at hsub
        exact absurd (List.sublist_nil.mp hsub) hRnil
      | cons t0 ts =>
        show objKeys t0 = cols
        apply hcols
        rw [hTE]
        exact List.mem_cons_self _ _
    apply checkViolations_nil_of_clean
    intro idx col hcol
    rw [hRcols] at hcol
    have hTcol : (tableColumns T).get? idx = some col := by rw [hTcols]; exact hcol
    constructor
    · rintro hc k hk
      by_contra hemp
      rw [Bool.not_eq_false] at hemp
      have hrmem : rowAt R k ∈ R := by
        rw [rowAt_eq_get R k hk]
        exact List.get_mem R k hk
      rcases hmem _ hrmem with ⟨k', hk', hrk', hnk'⟩
      apply hnk'
      apply mem_nullIdxOf_of_empty_cell T C ft cfg ty idx col hTcol hc k' hk'
      rw [← hrk']
      exact hemp
    · rintro hc k1 k2 h12 hk2 hne2 heq
      by_cases hin : col ∈ dupColsOf (checkViolations T C ft cfg ty)
      · have hrel := (List.pairwise_iff_get.mp hpair) ⟨k1, Nat.lt_trans h12 hk2⟩
          ⟨k2, hk2⟩ h12
        apply hrel col hin
        rw [rowAt_eq_get R k1 (Nat.lt_trans h12 hk2), rowAt_eq_get R k2 hk2] at heq
        unfold dupKey
        rw [heq]
      · rcases List.sublist_iff_exists_fin_orderEmbedding_get_eq.mp hsub with ⟨f, hf⟩
        apply hin
        have hmono : f ⟨k1, Nat.lt_trans h12 hk2⟩ < f ⟨k2, hk2⟩ :=
          f.strictMono h12
        apply mem_dupColsOf_of_dup_pair T C ft cfg ty idx col hTcol hc
          (f ⟨k1, Nat.lt_trans h12 hk2⟩).val (f ⟨k2, hk2⟩).val hmono
          (f ⟨k2, hk2⟩).isLt
        · rw [rowAt_eq_get T _ (f ⟨k2, hk2⟩).isLt]
          rw [show (⟨(f ⟨k2, hk2⟩).val, (f ⟨k2, hk2⟩).isLt⟩ : Fin T.length) =
            f ⟨k2, hk2⟩ from rfl]
          rw [← hf ⟨k2, hk2⟩]
          rw [rowAt_eq_get R k2 hk2] at hne2
          exact hne2
        · rw [rowAt_eq_get T _ (f ⟨k1, Nat.lt_trans h12 hk2⟩).isLt,
            rowAt_eq_get T _ (f ⟨k2, hk2⟩).isLt]
          rw [show (⟨(f ⟨k1, Nat.lt_trans h12 hk2⟩).val,
            (f ⟨k1, Nat.lt_trans h12 hk2⟩).isLt⟩ : Fin T.length) =
            f ⟨k1, Nat.lt_trans h12 hk2⟩ from rfl]
          rw [show (⟨(f ⟨k2, hk2⟩).val, (f ⟨k2, hk2⟩).isLt⟩ : Fin T.length) =
            f ⟨k2, hk2⟩ from rfl]
          rw [← hf ⟨k1, Nat.lt_trans h12 hk2⟩, ← hf ⟨k2, hk2⟩]
          rw [rowAt_eq_get R k1 (Nat.lt_trans h12 hk2), rowAt_eq_get R k2 hk2] at heq
          exact heq

/-- C4: every candidate produced by `generateGeneralRepairs` from the
violations of a table, re-checked against the same constraints with no
types and no foreign-key link (so exactly the null/empty and
duplicate-value checks), yields zero violations. -/
theorem C4_generalRepairs_recheck_clean (T : List Row) (C : List (List String))
    (ft : List (String × FileTable)) (cfg : Option FKConfig) (ty : List String)
    (file : String) (cols : List String) (cand : RepairFile)
    (hcols : ∀ r ∈ T, objKeys r = cols)
    (hcand : cand ∈ generateGeneralRepairs (checkViolations T C ft cfg ty) T file) :
    checkViolations cand.rows C [] none [] = [] := by
  rcases mem_generalRepairs_rows _ _ _ _ hcand with ⟨hR, hdup⟩ | hR | hR
  · rw [hR]
    apply recheck_clean_aux T C ft cfg ty cols hcols
    · exact removeNullRows_sublist _ T 0
    · intro r hr
      rcases mem_removeNullRows _ T 0 r hr with ⟨k, hk, hrk, hnk⟩
      exact ⟨k, hk, hrk, by simpa using hnk⟩
    · apply pairwise_trivial
      intro a b c hc
      rw [show dupColsOf (checkViolations T C ft cfg ty) = [] from by
        unfold dupColsOf
        rw [hdup]
        rfl] at hc
      exact absurd hc (List.not_mem_nil c)
  · rw [hR]
    apply recheck_clean_aux T C ft cfg ty cols hcols
    · exact keepFirstRows_sublist _ _ T 0 []
    · intro r hr
      rcases mem_keepFirstRows _ _ T 0 [] r hr with ⟨k, hk, hrk, hnk⟩
      exact ⟨k, hk, hrk, by simpa using hnk⟩
    · exact keepFirstRows_pairwise _ _ T 0 []
  · rw [hR]
    apply recheck_clean_aux T C ft cfg ty cols hcols
    · exact keepLastRows_sublist _ _ _ T 0
    · intro r hr
      rcases mem_keepLastRows _ _ _ T 0 r hr with ⟨k, hk, hrk, hnk, _⟩
      exact ⟨k, hk, hrk, by simpa using hnk⟩
    · exact keepLastRows_pairwise _ _ _ T 0

/-- Witness for C4: the keep-first candidate of the table ['1','1','2']
under a unique constraint re-checks clean. -/
theorem C4_generalRepairs_recheck_clean_witness :
    checkViolations
      (List.headD (generateGeneralRepairs
        (checkViolations [[("id", Value.vstr "1")], [("id", Value.vstr "1")],
          [("id", Value.vstr "2")]] [["unique"]] [] none [])
        [[("id", Value.vstr "1")], [("id", Value.vstr "1")], [("id", Value.vstr "2")]]
        "t.csv")
        { name := "", rows := [], columns := [], description := "" }).rows
      [["unique"]] [] none [] = [] :=
  C4_generalRepairs_recheck_clean
    [[("id", Value.vstr "1")], [("id", Value.vstr "1")], [("id", Value.vstr "2")]]
    [["unique"]] [] none [] "t.csv" ["id"] _
    (by intro r hr; fin_cases hr <;> rfl)
    (by decide)

/-- The `Array.prototype.join` conversion of one cell value: null and
undefined become the empty string. -/
def joinValStr : Value → String
  | Value.vnull => ""
  | Value.vundef => ""
  | Value.vstr s => s
  | Value.vnum n => toString n

/-- The group key `pkCols.map(col => row[col]).join('||')`. -/
def pkKeyOf (pkCols : List String) (row : Row) : String :=
  String.intercalate "||" (pkCols.map (fun c => joinValStr (getVal row c)))

/-- Insert a row into its group (`pkGroups[key].push(row)`), creating the
group on first sight.  JavaScript reorders integer-like object keys ahead
of the others when enumerating `Object.values`; the groups are kept in
plain insertion order here, which permutes the group list but leaves every
property proved below (all order-insensitive) unchanged. -/
def groupInsert (groups : List (String × List Row)) (key : String) (row : Row) :
    List (String × List Row) :=
  if (groups.lookup key).isSome then
    groups.map (fun p => if p.1 = key then (p.1, p.2 ++ [row]) else p)
  else groups ++ [(key, [row])]

/-- The grouping pass of `generatePrimaryKeyRepairs`. -/
def pkGroupsOf (pkCols : List String) (tableData : List Row) :
    List (String × List Row) :=
  tableData.foldl (fun gs row => groupInsert gs (pkKeyOf pkCols row) row) []

/-- The `cartesian` helper of `generatePrimaryKeyRepairs`:
`arr.reduce((a, b) => a.flatMap(d => b.map(e => [].concat(d, e))), [[]])`. -/
def cartesian (arr : List (List Row)) : List (List Row) :=
  arr.foldl (fun a b => a.flatMap (fun d => b.map (fun e => d ++ [e]))) [[]]

/-- The per-row completeness test of the combination filter: every non-key
column holds a non-empty value. -/
def pkRowComplete (pkCols : List String) (row : Row) : Bool :=
  (objKeys row).all (fun col => pkCols.contains col || !isEmptyVal (getVal row col))

/-- One JSON string character (the escapes used by `JSON.stringify` for
the characters occurring in this development; other control characters are
left unescaped, which no claim depends on). -/
def jsonEscapeChar (c : Char) : String :=
  if c = '"' then "\\\""
  else if c = '\\' then "\\\\"
  else if c = '\n' then "\\n"
  else if c = '\r' then "\\r"
  else if c = '\t' then "\\t"
  else String.singleton c

/-- `JSON.stringify` of one cell value (`undefined` inside an array
serialises as `null`). -/
def jsonOfValue : Value → String
  | Value.vnull => "null"
  | Value.vundef => "null"
  | Value.vnum n => toString n
  | Value.vstr s => "\"" ++ String.join (s.data.map jsonEscapeChar) ++ "\""

/-- `JSON.stringify` of `Object.values(row)`. -/
def jsonOfValueList (l : List Value) : String :=
  "[" ++ String.intercalate "," (l.map jsonOfValue) ++ "]"

/-- The dedup key `JSON.stringify(filteredRows.map(r => Object.values(r)))`. -/
def serializeRows (rows : List Row) : String :=
  "[" ++ String.intercalate "," (rows.map (fun r => jsonOfValueList (objValues r))) ++ "]"

/-- The primary-key columns:
`confirmedConstraints.map((arr, idx) => arr.includes('primary') ?
(tableData[0] && Object.keys(tableData[0])[idx]) : null).filter(Boolean)`. -/
def pkColsOf (tableData : List Row) (confirmedConstraints : List (List String)) :
    List String :=
  confirmedConstraints.enum.filterMap (fun p =>
    if p.2.contains "primary" then
      match tableData.head? with
      | none => none
      | some r =>
        match (objKeys r).get? p.1 with
        | some c => if c = "" then none else some c
        | none => none
    else none)

/-- The `allRepairs.forEach` loop of `generatePrimaryKeyRepairs`: skip
wrong-arity combinations, drop rows with empty non-key values, skip empty
and already-seen results, and emit one candidate per fresh serialisation
key.  (The JavaScript objects carry no description field; the record's
description is left empty.) -/
def pkRepairLoop (pkCols : List String) (groupsLen : Nat) (selectedFile : String)
    (tableCols : List String) : List (Nat × List Row) → List String → List RepairFile
  | [], _ => []
  | (idx, rows) :: rest, seen =>
    if rows.length ≠ groupsLen then
      pkRepairLoop pkCols groupsLen selectedFile tableCols rest seen
    else
      let filteredRows := rows.filter (pkRowComplete pkCols)
      if filteredRows.length = 0 then
        pkRepairLoop pkCols groupsLen selectedFile tableCols rest seen
      else
        let key := serializeRows filteredRows
        if seen.contains key then
          pkRepairLoop pkCols groupsLen selectedFile tableCols rest seen
        else
          { name := fileOr selectedFile ++ "_repair_" ++ toString (idx + 1) ++ "_" ++
              toString dateNow ++ ".csv",
            rows := filteredRows, columns := tableCols, description := "" } ::
          pkRepairLoop pkCols groupsLen selectedFile tableCols rest (key :: seen)

/-- The function `generatePrimaryKeyRepairs(tableData, confirmedConstraints,
selectedFile)` of `repairGenerator.js` lines 71-120. -/
def generatePrimaryKeyRepairs (tableData : List Row)
    (confirmedConstraints : List (List String)) (selectedFile : String) :
    List RepairFile :=
  let pkCols := pkColsOf tableData confirmedConstraints
  if pkCols.length > 0 then
    let groupChoices := (pkGroupsOf pkCols tableData).map Prod.snd
    let allRepairs := cartesian groupChoices
    pkRepairLoop pkCols groupChoices.length selectedFile (tableColumns tableData)
      allRepairs.enum []
  else []

theorem serializeRows_congr (rows1 rows2 : List Row)
    (h : rows1.map objValues = rows2.map objValues) :
    serializeRows rows1 = serializeRows rows2 := by
  unfold serializeRows
  have h1 : rows1.map (fun r => jsonOfValueList (objValues r)) =
      (rows1.map objValues).map jsonOfValueList := by
    rw [List.map_map]
    rfl
  have h2 : rows2.map (fun r => jsonOfValueList (objValues r)) =
      (rows2.map objValues).map jsonOfValueList := by
    rw [List.map_map]
    rfl
  rw [h1, h2, h]

theorem pkRepairLoop_keys_not_seen (pkCols : List String) (gl : Nat)
    (file : String) (tcols : List String) :
    ∀ (lst : List (Nat × List Row)) (seen : List String) (cand : RepairFile),
      cand ∈ pkRepairLoop pkCols gl file tcols lst seen →
      serializeRows cand.rows ∉ seen := by
  intro lst
  induction lst with
  | nil => intro seen cand h; cases h
  | cons p rest ih =>
    rcases p with ⟨idx, rows⟩
    intro seen cand h
    unfold pkRepairLoop at h
    by_cases h1 : rows.length ≠ gl
    · rw [if_pos h1] at h
      exact ih seen cand h
    · rw [if_neg h1] at h
      by_cases h2 : (rows.filter (pkRowComplete pkCols)).length = 0
      · rw [if_pos h2] at h
        exact ih seen cand h
      · rw [if_neg h2] at h
        by_cases h3 : seen.contains (serializeRows (rows.filter (pkRowComplete pkCols))) = true
        · rw [if_pos h3] at h
          exact ih seen cand h
        · rw [if_neg h3] at h
          rcases List.mem_cons.mp h with rfl | h
          · intro hmem
            exact h3 (List.contains_iff_exists_mem_beq.mpr ⟨_, hmem, by simp⟩)
          · intro hmem
            exact ih _ cand h (List.mem_cons_of_mem _ hmem)

theorem pkRepairLoop_pairwise (pkCols : List String) (gl : Nat)
    (file : String) (tcols : List String) :
    ∀ (lst : List (Nat × List Row)) (seen : List String),
      List.Pairwise (fun c1 c2 => serializeRows c1.rows ≠ serializeRows c2.rows)
        (pkRepairLoop pkCols gl file tcols lst seen) := by
  intro lst
  induction lst with
  | nil => intro seen; exact List.Pairwise.nil
  | cons p rest ih =>
    rcases p with ⟨idx, rows⟩
    intro seen
    unfold pkRepairLoop
    by_cases h1 : rows.length ≠ gl
    · rw [if_pos h1]
      exact ih seen
    · rw [if_neg h1]
      by_cases h2 : (rows.filter (pkRowComplete pkCols)).length = 0
      · rw [if_pos h2]
        exact ih seen
      · rw [if_neg h2]
        by_cases h3 : seen.contains (serializeRows (rows.filter (pkRowComplete pkCols))) = true
        · rw [if_pos h3]
          exact ih seen
        · rw [if_neg h3]
          refine List.Pairwise.cons ?_ (ih _)
          intro c2 hc2 heq
          have h4 := pkRepairLoop_keys_not_seen pkCols gl file tcols rest _ c2 hc2
          apply h4
          rw [← heq]
          exact List.mem_cons_self _ _

/-- C6: no two candidates returned by `generatePrimaryKeyRepairs` have
identical surviving row value-tuples: the dedup key is a function of the
value-tuples, and the loop never emits two candidates with the same key. -/
theorem C6_pkRepairs_value_tuples_distinct (tableData : List Row)
    (confirmedConstraints : List (List String)) (selectedFile : String) :
    List.Pairwise (fun c1 c2 => c1.rows.map objValues ≠ c2.rows.map objValues)
      (generatePrimaryKeyRepairs tableData confirmedConstraints selectedFile) := by
  unfold generatePrimaryKeyRepairs
  by_cases hpk : (pkColsOf tableData confirmedConstraints).length > 0
  · rw [if_pos hpk]
    refine List.Pairwise.imp ?_ (pkRepairLoop_pairwise _ _ _ _ _ [])
    intro c1 c2 hne heq
    exact hne (serializeRows_congr _ _ heq)
  · rw [if_neg hpk]
    exact List.Pairwise.nil

/-- The dynamic (JavaScript-typed) table argument of `checkViolations`:
`null`/`undefined`, a plain non-array object with no `length` property
(such as `{}`), or a genuine row array. -/
inductive JSTableArg where
  | jsNull : JSTableArg
  | jsPlainObject : JSTableArg
  | jsTable : List Row → JSTableArg

/-- The guard line `if (!tableData.length || !confirmedConstraints.length)`
of `checkViolations` under JavaScript member-access semantics: reading
`.length` of `null`/`undefined` throws a TypeError; on a plain object it
yields `undefined`, which is falsy, so the function returns `[]`; on an
array the static model proceeds. -/
def checkViolationsDyn (tableData : JSTableArg) (confirmedConstraints : List (List String))
    (fileTables : List (String × FileTable)) (foreignKeyConfig : Option FKConfig)
    (confirmedTypes : List String) : Except String (List Violation) :=
  match tableData with
  | JSTableArg.jsNull =>
    Except.error "TypeError: Cannot read properties of null (reading 'length')"
  | JSTableArg.jsPlainObject => Except.ok []
  | JSTableArg.jsTable rows =>
    Except.ok (checkViolations rows confirmedConstraints fileTables foreignKeyConfig
      confirmedTypes)

/-- Counterexample for C9: a null table value makes `checkViolations`
throw a TypeError instead of returning an empty result, and a zero-column
table with a configured foreign-key link yields a non-empty violation
list (the foreign-key pass reads only `fileTables`). -/
theorem C9_counterexample :
    checkViolationsDyn JSTableArg.jsNull [["primary"]] [] none [] =
      Except.error "TypeError: Cannot read properties of null (reading 'length')" ∧
    checkViolations [[]] [["primary"]]
      [("p.csv", { columns := ["pk"], rows := [[("pk", Value.vstr "1")]] }),
       ("f.csv", { columns := ["fk"], rows := [[("fk", Value.vstr "9")]] })]
      (some { primaryFile := "p.csv", fkCol := "fk", referencedFile := "f.csv" })
      [] ≠ [] := by
  constructor
  · rfl
  · decide

/-- C9 amended: on empty input — a table with zero rows, zero
columns (with no foreign-key link), or zero per-column constraint sets —
violation detection and every repair generator return an empty result,
and a plain non-array object is also answered with an empty result
without throwing; but a null/undefined table value makes `checkViolations`
throw a TypeError. -/
theorem C9_empty_inputs_amended :
    (∀ (C : List (List String)) (ft : List (String × FileTable))
       (cfg : Option FKConfig) (ty : List String),
      checkViolations [] C ft cfg ty = []) ∧
    (∀ (T : List Row) (ft : List (String × FileTable)) (cfg : Option FKConfig)
       (ty : List String),
      checkViolations T [] ft cfg ty = []) ∧
    (∀ (rows : List Row) (C : List (List String)) (ft : List (String × FileTable))
       (ty : List String),
      (∀ r ∈ rows, r = []) → checkViolations rows C ft none ty = []) ∧
    (∀ (C : List (List String)) (ft : List (String × FileTable))
       (cfg : Option FKConfig) (ty : List String),
      checkViolationsDyn JSTableArg.jsPlainObject C ft cfg ty = Except.ok []) ∧
    (∀ (C : List (List String)) (file : String),
      generatePrimaryKeyRepairs [] C file = []) ∧
    (∀ (T : List Row) (file : String), generatePrimaryKeyRepairs T [] file = []) ∧
    (∀ (T : List Row) (file : String), generateGeneralRepairs [] T file = []) ∧
    (∀ (T : List Row) (file : String) (ty : List String),
      generatePartialRepairs [] T file ty = []) := by
  refine ⟨?_, ?_, ?_, ?_, ?_, ?_, ?_, ?_⟩
  · intro C ft cfg ty
    rfl
  · intro T ft cfg ty
    unfold checkViolations
    rw [if_pos (by simp)]
  · intro rows C ft ty hcols
    cases hR : rows with
    | nil => rfl
    | cons r rest =>
      unfold checkViolations
      by_cases hC : C.isEmpty = true
      · rw [if_pos (by simp [hC])]
      · rw [if_neg (by simp [Bool.not_eq_true] at hC ⊢; simp [hC])]
        have hr0 : r = [] := hcols r (by rw [hR]; exact List.mem_cons_self _ _)
        rw [show tableColumns (r :: rest) = objKeys r from rfl, hr0]
        rfl
  · intro C ft cfg ty
    rfl
  · intro C file
    unfold generatePrimaryKeyRepairs
    rw [if_neg (by
      have h : pkColsOf [] C = [] := by
        apply List.filterMap_eq_nil.mpr
        intro p hp
        by_cases hc : p.2.contains "primary" = true
        · simp [pkColsOf, hc]
        · simp [pkColsOf, hc]
      rw [h]
      simp)]
  · intro T file
    rfl
  · intro T file
    rfl
  · intro T file ty
    rfl

/-- Witness for amended C9: the zero-column clause at a concrete
one-row, zero-column table. -/
theorem C9_empty_inputs_amended_witness :
    checkViolations [[]] [["notnull"]] [] none [] = [] :=
  C9_empty_inputs_amended.2.2.1 [[]] [["notnull"]] [] []
    (by intro r hr; simpa using List.mem_singleton.mp hr)
